import Mathlib

/-!
Verification of the HeatShop scraper (src/heatshop-scraper/scrape-heatshop.js).

The JavaScript source is shallowly embedded: each JS helper becomes an
executable Lean definition over `String`/`List Char`/`Nat`/`Int`/`Rat`.
JS numbers that stay within the exact decimal fragment exercised by the
scraper (integer wattages, two-decimal prices) are modelled with `Rat`;
`Math.round` is modelled as round-half-up on rationals.  Character-level
JS string methods (`toLowerCase`, `toUpperCase`, `trim`, `replace` with a
single-character class, `substring`) are modelled per character on the
ASCII fragment the scraper manipulates.
-/

namespace Norko

/-! ## Character-level models of the JS string primitives -/

/-- Model of the regex character class `[a-z0-9]` (lowercase ASCII letter or
digit), used by `generateId`'s hyphen substitution. -/
def isLowerAlnum (c : Char) : Bool :=
  (97 ≤ c.toNat && c.toNat ≤ 122) || (48 ≤ c.toNat && c.toNat ≤ 57)

/-- Per-character model of `String.prototype.toLowerCase` (ASCII mapping:
`A`..`Z` shift by 32, everything else fixed). -/
def jsLowerChar (c : Char) : Char :=
  if 65 ≤ c.toNat && c.toNat ≤ 90 then Char.ofNat (c.toNat + 32) else c

/-- Per-character model of `String.prototype.toUpperCase` (ASCII mapping:
`a`..`z` shift by 32, everything else fixed). -/
def jsUpperChar (c : Char) : Char :=
  if 97 ≤ c.toNat && c.toNat ≤ 122 then Char.ofNat (c.toNat - 32) else c

/-- `name.toLowerCase()` as used at scrape-heatshop.js line 1010. -/
def jsToLowerCase (s : String) : String := String.mk (s.data.map jsLowerChar)

/-- `s.toUpperCase()` as used at scrape-heatshop.js line 1023. -/
def jsToUpperCase (s : String) : String := String.mk (s.data.map jsUpperChar)

/-- `s.substring(0, n)`: the first `n` characters. -/
def jsSubstringTo (s : String) (n : Nat) : String := String.mk (s.data.take n)

/-! ## generateId (scrape-heatshop.js lines 1009-1015)

The JS source:
name.toLowerCase().replace(slash [^a-z0-9] slash g, hyphen)
  .replace(slash -+ slash g, hyphen).replace(slash ^-|-$ slash g, empty)
  .substring(0, 50)
-/

/-- One character of the substitution `[^a-z0-9] -> '-'`: anything outside
`[a-z0-9]` becomes a hyphen. -/
def slugChar (c : Char) : Char := if isLowerAlnum c then c else '-'

/-- The substitution `-+ -> '-'` (global): collapse every run of hyphens to
a single hyphen. -/
def collapseHyphens : List Char → List Char
  | [] => []
  | [c] => [c]
  | a :: b :: rest =>
    if a = '-' && b = '-' then collapseHyphens (b :: rest)
    else a :: collapseHyphens (b :: rest)

/-- First half of the edge-hyphen removal `^-|-$ -> ''` (global): remove a
single leading hyphen. -/
def dropLeadingHyphen : List Char → List Char
  | [] => []
  | c :: t => if c = '-' then t else c :: t

/-- Second half of the edge-hyphen removal: remove a single trailing
hyphen. -/
def dropTrailingHyphen (l : List Char) : List Char :=
  if l.getLast? = some '-' then l.dropLast else l

/-- The edge-hyphen removal `^-|-$ -> ''` (global).  It runs after hyphen
runs are collapsed, so at most one hyphen sits at each end and removing one
at each end is the whole global replacement. -/
def stripEdgeHyphens (l : List Char) : List Char :=
  dropTrailingHyphen (dropLeadingHyphen l)

/-- `generateId` of scrape-heatshop.js lines 1009-1015. -/
def generateId (name : String) : String :=
  String.mk
    ((stripEdgeHyphens
        (collapseHyphens ((jsToLowerCase name).data.map slugChar))).take 50)

/-- Characters a `generateId` result may contain: lowercase alphanumerics
and hyphens. -/
def isSlugChar (c : Char) : Bool := isLowerAlnum c || c = '-'

/-- `true` when the character list contains no two adjacent hyphens. -/
def noAdjHyphens : List Char → Bool
  | [] => true
  | [_] => true
  | a :: b :: rest => !(a = '-' && b = '-') && noAdjHyphens (b :: rest)

/-- The name used to refute idempotence of `generateId`: 49 `a`s followed by
a space and a `b`; its slug `aaa...a-b` is 51 characters long, so the final
`substring(0, 50)` cuts right after the hyphen. -/
def truncatedSlugName : String := String.mk (List.replicate 49 'a' ++ [' ', 'b'])

/-! ## generateSku (scrape-heatshop.js lines 1022-1025)

The JS source: `name.substring(0, 3).toUpperCase()` then the template
producing nameCode, a hyphen, the wattage and a trailing `W`.
-/

/-- `generateSku` of scrape-heatshop.js lines 1022-1025; `wattage` is the
integer the callers pass. -/
def generateSku (name : String) (wattage : Nat) : String :=
  jsToUpperCase (jsSubstringTo name 3) ++ "-" ++ toString wattage ++ "W"

/-- The spec's description of the SKU format: the first three characters of
the name uppercased, a hyphen, the wattage, and a trailing `W`. -/
def skuSpecFormat (name : String) (wattage : Nat) : String :=
  String.mk ((name.data.take 3).map jsUpperChar) ++ "-" ++ Nat.repr wattage ++ "W"

/-! ## The document model and the field extractors

A fetched HTML document is abstracted by what the extractors ask cheerio
for: the text of the first element matching a selector (`none` when the
selector matches nothing) and that element's inner HTML (`none` models a
null `html()`).
-/

/-- A loaded document as the extractors see it. -/
structure Doc where
  textOf : String → Option String
  htmlOf : String → Option String

/-- The for-loop with early return shared by the field extractors
(lines 430-435, 454-463, 483-488): try each selector in order and return
the first hit. -/
def firstSome {α : Type} (f : String → Option α) : List String → Option α
  | [] => none
  | s :: rest =>
    match f s with
    | some v => some v
    | none => firstSome f rest

/-- JS whitespace as matched by `trim` and the class `\s`: space, tab,
newline, carriage return, form feed, vertical tab. -/
def isJsWhitespace (c : Char) : Bool :=
  c = ' ' || c = '\t' || c = '\n' || c = '\r' || c.toNat = 12 || c.toNat = 11

/-- `String.prototype.trim`. -/
def jsTrim (s : String) : String :=
  String.mk ((s.data.dropWhile isJsWhitespace).reverse.dropWhile isJsWhitespace).reverse

/-- The substitution of every whitespace run by a single space
(line 433). -/
def collapseWs : List Char → List Char
  | [] => []
  | [c] => if isJsWhitespace c then [' '] else [c]
  | a :: b :: rest =>
    if isJsWhitespace a && isJsWhitespace b then collapseWs (b :: rest)
    else (if isJsWhitespace a then ' ' else a) :: collapseWs (b :: rest)

/-- The JS `a || b` idiom on a nullable string: `b` when `a` is null or
empty. -/
def jsOrElse (a : Option String) (b : String) : String :=
  match a with
  | some s => if s = "" then b else s
  | none => b

/-! ### extractProductName (scrape-heatshop.js lines 420-438) -/

/-- The ordered selector candidates of `extractProductName` (lines
421-428). -/
def nameSelectors : List String :=
  ["h1", ".product-title", ".product-name", "title", ".page-title",
   "[class*=\"title\"]"]

/-- One candidate of `extractProductName`: the selector has an element whose
trimmed text is non-empty; the value is that text, trimmed and with
whitespace runs collapsed (lines 431-434). -/
def nameCandidate (doc : Doc) (sel : String) : Option String :=
  (doc.textOf sel).bind (fun t =>
    if jsTrim t = "" then none
    else some (String.mk (collapseWs (jsTrim t).data)))

/-- `extractProductName` (lines 420-438): first matching candidate wins,
otherwise the fallback name. -/
def extractProductName (doc : Doc) : String :=
  match firstSome (nameCandidate doc) nameSelectors with
  | some v => v
  | none => "Unknown Product"

/-! ### extractPrice (scrape-heatshop.js lines 445-466) -/

/-- The digit class `0-9` of the price pattern. -/
def isDigitChar (c : Char) : Bool := 48 ≤ c.toNat && c.toNat ≤ 57

/-- Numeric value of a digit character. -/
def digitVal (c : Char) : Nat := c.toNat - 48

/-- A digit run read as a decimal numeral. -/
def natOfDigits (l : List Char) : Nat :=
  l.foldl (fun acc c => acc * 10 + digitVal c) 0

/-- `parseFloat` of the group captured by the price pattern starting at a
digit: the maximal digit run, extended by `.dd` when a dot and two digits
follow (the regex's optional fractional part is greedy). -/
def parsePriceAt (l : List Char) : ℚ :=
  let ds := l.takeWhile isDigitChar
  let rest := l.dropWhile isDigitChar
  match rest with
  | '.' :: d1 :: d2 :: _ =>
    if isDigitChar d1 && isDigitChar d2 then
      (natOfDigits ds : ℚ) + ((10 * digitVal d1 + digitVal d2 : ℕ) : ℚ) / 100
    else (natOfDigits ds : ℚ)
  | _ => (natOfDigits ds : ℚ)

/-- The price pattern (line 458: optional pound sign, digits, optional
two-digit fraction) applied to an element text.  Its leftmost match starts
at the first digit — the optional currency sign does not change the captured
group — and there is no match when the text has no digit. -/
def jsMatchPrice : List Char → Option ℚ
  | [] => none
  | c :: t => if isDigitChar c then some (parsePriceAt (c :: t)) else jsMatchPrice t

/-- The price pattern on a `String`. -/
def jsMatchPriceStr (s : String) : Option ℚ := jsMatchPrice s.data

/-- The ordered selector candidates of `extractPrice` (lines 446-452). -/
def priceSelectors : List String :=
  [".price", ".product-price", "[class*=\"price\"]", ".cost", ".amount"]

/-- One candidate of `extractPrice`: the selector has an element whose text
matches the price pattern (lines 455-461). -/
def priceCandidate (doc : Doc) (sel : String) : Option ℚ :=
  (doc.textOf sel).bind jsMatchPriceStr

/-- JS `Math.round`: round half toward positive infinity. -/
def jsRound (q : ℚ) : ℤ := ⌊q + 1/2⌋

/-- `generateDummyPrice` (lines 1052-1054):
`Math.round((r * 500 + 200) * 100) / 100` where `r` models the
`Math.random()` draw in `[0, 1)`. -/
def generateDummyPrice (r : ℚ) : ℚ :=
  (jsRound ((r * 500 + 200) * 100) : ℚ) / 100

/-- `extractPrice` (lines 445-466): the first selector whose element text
matches the price pattern wins; otherwise the dummy price. -/
def extractPrice (doc : Doc) (r : ℚ) : ℚ :=
  match firstSome (priceCandidate doc) priceSelectors with
  | some p => p
  | none => generateDummyPrice r

/-! ### extractDescription (scrape-heatshop.js lines 473-491) -/

/-- The ordered selector candidates of `extractDescription` (lines
474-481). -/
def descSelectors : List String :=
  [".product-description", ".description", ".product-details",
   ".product-info p", ".content p", ".summary"]

/-- One candidate of `extractDescription`: the selector has an element whose
trimmed text is longer than 50 characters; the value is the element's inner
HTML, or its text when the HTML is null or empty (lines 484-487). -/
def descCandidate (doc : Doc) (sel : String) : Option String :=
  (doc.textOf sel).bind (fun t =>
    if 50 < (jsTrim t).length then some (jsOrElse (doc.htmlOf sel) t) else none)

/-- The hardcoded fallback description (line 490). -/
def descriptionFallback : String :=
  "<p>High-quality infrared heater providing efficient and comfortable heating.</p>"

/-- `extractDescription` (lines 473-491). -/
def extractDescription (doc : Doc) : String :=
  match firstSome (descCandidate doc) descSelectors with
  | some v => v
  | none => descriptionFallback

/-- The document exhibiting the C6 counterexample: its
`.product-description` element has the non-empty 22-character text
`Compact and efficient.` and nothing else matches. -/
def shortDescDoc : Doc where
  textOf := fun sel =>
    if sel = ".product-description" then some "Compact and efficient." else none
  htmlOf := fun _ => none

/-! ## makeRequest (scrape-heatshop.js lines 136-179)

The network is abstracted by an oracle giving each attempt's outcome;
attempt `k` is the call with `retryCount = k`, so attempt 0 is the initial
request and attempts 1..3 are the retries.  The clock (`timestamp` fields)
is dropped from the error entries; the delay calls only pause execution.
-/

/-- `CONFIG.maxRetries` (line 38). -/
def maxRetries : Nat := 3

/-- What distinguishes the two kinds of entries pushed onto `this.errors`:
fetch failures carry the final `retryCount` (line 174), extraction failures
carry the `step` tag (line 409). -/
inductive ErrorTag where
  | fetchFail (retryCount : Nat)
  | extractFail (step : String)
deriving DecidableEq

/-- One entry of `this.errors` (lines 170-175 and 405-410), without the
wall-clock timestamp. -/
structure ErrorEntry where
  url : String
  message : String
  tag : ErrorTag
deriving DecidableEq

/-- The outcome of each HTTP attempt, indexed by `retryCount`. -/
def FetchOracle := Nat → Except String String

/-- What a `makeRequest` call produces: the HTML (or null), the entries it
pushed onto `this.errors`, and how many HTTP attempts it made (the number of
`axios.get` calls, i.e. the increments of `statistics.totalRequests`). -/
structure RequestResult where
  html : Option String
  errors : List ErrorEntry
  attempts : Nat
deriving DecidableEq

/-- `makeRequest` (lines 136-179) entered with the given `retryCount`: a
successful attempt returns the page; a failed attempt retries while
`retryCount < CONFIG.maxRetries`, and otherwise pushes one error entry
recording the final `retryCount` and returns null. -/
def makeRequestFrom (fetch : FetchOracle) (url : String) (retryCount : Nat) :
    RequestResult :=
  match fetch retryCount with
  | Except.ok html => ⟨some html, [], 1⟩
  | Except.error msg =>
    if retryCount < maxRetries then
      let r := makeRequestFrom fetch url (retryCount + 1)
      ⟨r.html, r.errors, r.attempts + 1⟩
    else
      ⟨none, [⟨url, msg, ErrorTag.fetchFail retryCount⟩], 1⟩
termination_by maxRetries + 1 - retryCount
decreasing_by simp_wf; omega

/-- `makeRequest(url)` as every caller invokes it: `retryCount = 0`. -/
def makeRequest (fetch : FetchOracle) (url : String) : RequestResult :=
  makeRequestFrom fetch url 0

/-- The oracle refuting the second half of C1: attempts 0, 1 and 2 (the
initial request and the first two retries) fail, attempt 3 succeeds. -/
def failThriceOracle : FetchOracle :=
  fun k => if k < 3 then Except.error "timeout of 15000ms exceeded"
           else Except.ok "<html>heater page</html>"

/-! ## extractProductDetails (scrape-heatshop.js lines 277-413)

The try-block of lines 283-401 assembles the product from the extractor
calls; for the error-path claims it is abstracted as a function that either
returns a product or throws (`Except.error`).
-/

/-- `extractProductDetails` (lines 277-413): fetch the page; a null page
returns null (the fetch failure was already recorded inside `makeRequest`);
a page whose extraction throws is caught, pushes one error entry tagged
`product_extraction`, and returns null — extraction is never retried.  The
result also carries the error entries pushed during the call and the number
of HTTP attempts made. -/
def extractProductDetails {α : Type} (fetch : FetchOracle) (url : String)
    (extract : String → Except String α) : Option α × List ErrorEntry × Nat :=
  let r := makeRequest fetch url
  match r.html with
  | none => (none, r.errors, r.attempts)
  | some html =>
    match extract html with
    | Except.ok p => (some p, r.errors, r.attempts)
    | Except.error e =>
      (none, r.errors ++ [⟨url, e, ErrorTag.extractFail "product_extraction"⟩],
       r.attempts)

/-- The per-category product loop of `scrapeProducts` (lines 1099-1128)
restricted to what the error-path claims exercise: each product URL is
processed once; a non-null product is appended to `this.products`, a null
one is skipped, and every pushed error entry lands in `this.errors`. -/
def processProducts {α : Type} (fetchFor : String → FetchOracle)
    (extractFor : String → String → Except String α) :
    List String → List α × List ErrorEntry
  | [] => ([], [])
  | url :: rest =>
    let step := extractProductDetails (fetchFor url) url (extractFor url)
    let acc := processProducts fetchFor extractFor rest
    match step.1 with
    | some prod => (prod :: acc.1, step.2.1 ++ acc.2)
    | none => (acc.1, step.2.1 ++ acc.2)

/-- The end-to-end scenario of C7: a category with three product URLs, of
which `u3` is unreachable (every attempt fails) and the other two respond on
the first attempt. -/
def scenarioFetch (url : String) : FetchOracle :=
  fun _ =>
    if url = "u3" then Except.error "connect ECONNREFUSED"
    else Except.ok "<h1>Infrared Heater</h1>"

/-- The extraction body of the C7 scenario: extraction succeeds on every
fetched page. -/
def scenarioExtract : String → String → Except String String :=
  fun _ html => Except.ok html

/-! ## extractProductUrls (scrape-heatshop.js lines 187-239)

The three candidate-gathering strategies (lines 194-229) query cheerio for
hrefs; their combined output on the fetched page is the `candidates` input.
The claims about `processedUrls` concern only the set logic of lines
192 and 231-238, which is embedded exactly.
-/

/-- Insertion into a JS `Set` of strings: append when absent (JS sets are
insertion-ordered and duplicate-free). -/
def insertUnique (l : List String) (u : String) : List String :=
  if u ∈ l then l else l ++ [u]

/-- The `Set` of candidate URLs built up by the three strategies
(line 192). -/
def jsSetOfList (candidates : List String) : List String :=
  candidates.foldl insertUnique []

/-- `extractProductUrls` (lines 187-239): `none` models a failed category
fetch (returns `[]`, line 189, leaving the set untouched); otherwise the
candidates are deduplicated, filtered against `processedUrls`, all new URLs
are marked processed (line 235), and the first 25 are returned
(line 238). -/
def extractProductUrls (fetched : Option (List String))
    (processed : List String) : List String × List String :=
  match fetched with
  | none => ([], processed)
  | some candidates =>
    let productUrls := jsSetOfList candidates
    let newUrls := productUrls.filter (fun u => !(processed.contains u))
    (newUrls.take 25, processed ++ newUrls)

/-- The category loop of `scrapeProducts` as C9 sees it: fold
`extractProductUrls` over each category's fetched candidate list, collecting
the per-category batches and threading `processedUrls`. -/
def runCategories : List (Option (List String)) → List String →
    List (List String) × List String
  | [], processed => ([], processed)
  | f :: rest, processed =>
    let step := extractProductUrls f processed
    let acc := runCategories rest step.2
    (step.1 :: acc.1, acc.2)

/-! ## generateEnhancedVariants (scrape-heatshop.js lines 940-1006) -/

/-- The fields of the basic specification object (lines 574-585) that
`generateEnhancedVariants` and its helpers read. -/
structure Specs where
  wattage : Option Nat
  dimensions : Option String
  coverage : Option String
  control_type : Option String
deriving DecidableEq

/-- JS truthiness of a nullable number: 0, null and undefined are falsy. -/
def truthyWattage : Option Nat → Bool
  | some w => w != 0
  | none => false

/-- JS truthiness of a nullable string: the empty string, null and undefined
are falsy. -/
def truthyStr : Option String → Bool
  | some s => s != ""
  | none => false

/-- Substring search, modelling `String.prototype.includes`. -/
def jsIncludesL (sub : List Char) : List Char → Bool
  | [] => sub.isEmpty
  | c :: t => sub.isPrefixOf (c :: t) || jsIncludesL sub t

/-- `a.includes(b)` on strings. -/
def jsIncludes (s sub : String) : Bool := jsIncludesL sub.data s.data

/-- `calculateCoverage` (lines 835-845): an explicit coverage wins; else a
wattage gives `Math.round(wattage / 12)` square metres; else the 15 m²
default. -/
def calculateCoverage (specs : Specs) : String :=
  if truthyStr specs.coverage then specs.coverage.getD ""
  else if truthyWattage specs.wattage then
    toString (jsRound ((specs.wattage.getD 0 : ℚ) / 12)) ++ "m²"
  else "15m²"

/-- `calculateEfficiency` (lines 869-878). -/
def calculateEfficiency (specs : Specs) : String :=
  if truthyStr specs.control_type
      && jsIncludes (specs.control_type.getD "") "thermostat" then
    "A+ Energy Rating"
  else if truthyStr specs.control_type
      && jsIncludes (specs.control_type.getD "") "remote" then
    "A Energy Rating"
  else "B+ Energy Rating"

/-- One price variant of a product variant (lines 963-967). -/
structure PriceVariant where
  identifier : String
  price : ℚ
  currency : String
deriving DecidableEq

/-- One attribute of a product variant (lines 968-973); `attrName` stands
for the JS field named `attribute`. -/
structure VariantAttr where
  attrName : String
  value : String
deriving DecidableEq

/-- A product variant (lines 959-976). -/
structure Variant where
  name : String
  sku : String
  price : ℚ
  priceVariants : List PriceVariant
  attributes : List VariantAttr
  stock : Nat
  isDefault : Bool
deriving DecidableEq

/-- The wattage options of the wattage branch (lines 944-953): the base
wattage, extended by two siblings inside the 300-600 and 600-1000 bands. -/
def wattageOptions (baseWattage : Nat) : List Nat :=
  if 300 ≤ baseWattage && baseWattage < 600 then
    [baseWattage, baseWattage + 200, baseWattage + 400]
  else if 600 ≤ baseWattage && baseWattage < 1000 then
    [baseWattage, baseWattage - 200, baseWattage + 300]
  else [baseWattage]

/-- One variant of the wattage branch (lines 955-977).  `stockOf` and
`dimsOf` supply the `Math.random()`-backed dummy stock and dimensions drawn
for the variant at each index. -/
def mkWattageVariant (name : String) (basePrice : ℚ) (specs : Specs)
    (baseWattage : Nat) (stockOf : Nat → Nat) (dimsOf : Nat → String)
    (index : Nat) (wattage : Nat) : Variant :=
  let priceMultiplier : ℚ := (wattage : ℚ) / (baseWattage : ℚ)
  let variantPrice : ℚ := (jsRound (basePrice * priceMultiplier * 100) : ℚ) / 100
  { name := toString wattage ++ "W"
    sku := generateSku name wattage
    price := variantPrice
    priceVariants := [⟨"default", variantPrice, "GBP"⟩]
    attributes :=
      [⟨"wattage", toString wattage ++ "W"⟩,
       ⟨"dimensions",
        if truthyStr specs.dimensions then specs.dimensions.getD ""
        else dimsOf index⟩,
       ⟨"coverage", calculateCoverage ⟨some wattage, none, none, none⟩⟩,
       ⟨"efficiency", calculateEfficiency specs⟩]
    stock := stockOf index
    isDefault := index == 0 }

/-- One variant of the standard branch (lines 979-1002): wattages 350, 550
and 900, price scaled against 350, always-dummy dimensions, no efficiency
attribute. -/
def mkStandardVariant (name : String) (basePrice : ℚ)
    (stockOf : Nat → Nat) (dimsOf : Nat → String)
    (index : Nat) (wattage : Nat) : Variant :=
  let priceMultiplier : ℚ := (wattage : ℚ) / 350
  let variantPrice : ℚ := (jsRound (basePrice * priceMultiplier * 100) : ℚ) / 100
  { name := toString wattage ++ "W"
    sku := generateSku name wattage
    price := variantPrice
    priceVariants := [⟨"default", variantPrice, "GBP"⟩]
    attributes :=
      [⟨"wattage", toString wattage ++ "W"⟩,
       ⟨"dimensions", dimsOf index⟩,
       ⟨"coverage", calculateCoverage ⟨some wattage, none, none, none⟩⟩]
    stock := stockOf index
    isDefault := index == 0 }

/-- `generateEnhancedVariants` (lines 940-1006): a truthy wattage takes the
wattage branch over `wattageOptions`; otherwise the standard branch over
350/550/900.  The `forEach` with index is `mapIdx`. -/
def generateEnhancedVariants (name : String) (basePrice : ℚ) (specs : Specs)
    (stockOf : Nat → Nat) (dimsOf : Nat → String) : List Variant :=
  if truthyWattage specs.wattage then
    let baseWattage := specs.wattage.getD 0
    (wattageOptions baseWattage).mapIdx
      (fun index wattage =>
        mkWattageVariant name basePrice specs baseWattage stockOf dimsOf
          index wattage)
  else
    ([350, 550, 900] : List Nat).mapIdx
      (fun index wattage =>
        mkStandardVariant name basePrice stockOf dimsOf index wattage)

/-! ## saveProducts (scrape-heatshop.js lines 1167-1207)

The in-memory product list is modelled with the fields `saveProducts`
reads: the category name, `pricing.basePrice`, `specifications.basic.wattage`
and `media.images`.  The wall clock (`scrapedAt`, `processingTime`) and the
run's statistics and error log enter as parameters.  `fs.writeFile` rewrites
`CONFIG.outputFile` with the serialized object, so the written content is a
pure function of the run state — the `Output` value below.
-/

/-- One image reference (lines 530-533). -/
structure ProductImage where
  url : String
  altText : String
deriving DecidableEq

/-- The pricing block read by `saveProducts` (lines 316-321). -/
structure Pricing where
  basePrice : ℚ
  currency : String
deriving DecidableEq

/-- A product as `saveProducts` consumes it; `wattage` is
`specifications.basic.wattage` and `images` is `media.images`. -/
structure Product where
  id : String
  name : String
  category : String
  pricing : Pricing
  wattage : Option Nat
  images : List ProductImage
deriving DecidableEq

/-- `CONFIG` (lines 28-42). -/
structure Config where
  baseUrl : String
  delay : Nat
  maxProducts : Nat
  outputFile : String
  userAgent : String
  enableImageDownload : Bool
  validateData : Bool
  retryFailedRequests : Bool
  maxRetries : Nat
  generateFallbackData : Bool
  extractTechnicalSpecs : Bool
  categorizeByPower : Bool
deriving DecidableEq

/-- The hard-coded configuration values (lines 28-42). -/
def CONFIG : Config :=
  { baseUrl := "https://www.heatershop.co.uk"
    delay := 2000
    maxProducts := 100
    outputFile := "crystallize-products.json"
    userAgent := "Educational-Portfolio-Bot/1.0"
    enableImageDownload := false
    validateData := true
    retryFailedRequests := true
    maxRetries := 3
    generateFallbackData := true
    extractTechnicalSpecs := true
    categorizeByPower := true }

/-- A category as `saveProducts` reads it (name, description, powerRange;
lines 45-101 and 1180-1185). -/
structure Category where
  name : String
  description : String
  powerRange : String
deriving DecidableEq

/-- The hard-coded category list (lines 45-101), restricted to the fields
`saveProducts` serializes. -/
def CATEGORIES : List Category :=
  [⟨"Panel Heaters",
    "Wall-mounted infrared panel heaters perfect for residential and office spaces",
    "250W - 1200W"⟩,
   ⟨"Ceiling Heaters",
    "Ceiling-mounted infrared heaters ideal for commercial environments",
    "1000W - 3000W"⟩,
   ⟨"Industrial Heaters",
    "Heavy-duty infrared heaters for workshops and industrial spaces",
    "2000W - 6000W"⟩,
   ⟨"Far Infrared Heaters",
    "Health-focused far infrared heating technology",
    "300W - 800W"⟩,
   ⟨"Patio Heaters",
    "Outdoor infrared heaters for patios and hospitality",
    "1500W - 3000W"⟩]

/-- `this.statistics` (lines 112-118). -/
structure Stats where
  totalRequests : Nat
  successfulRequests : Nat
  failedRequests : Nat
  productsExtracted : Nat
  categoriesProcessed : Nat
deriving DecidableEq

/-- One serialized category summary (lines 1180-1185). -/
structure CategoryMeta where
  name : String
  description : String
  powerRange : String
  productsExtracted : Nat
deriving DecidableEq

/-- `dataQuality.powerRange` (lines 1191-1194); `none` models the empty
spread (`Math.min()` is Infinity, `Math.max()` is -Infinity). -/
structure PowerRange where
  min : Option Nat
  max : Option Nat
deriving DecidableEq

/-- `dataQuality` (lines 1186-1195). -/
structure DataQuality where
  productsWithPricing : Nat
  productsWithSpecs : Nat
  productsWithImages : Nat
  averagePrice : ℤ
  powerRange : PowerRange
deriving DecidableEq

/-- The metadata block of the output file (lines 1169-1196). -/
structure Metadata where
  scrapedAt : String
  totalProducts : Nat
  source : String
  version : String
  configuration : Config
  statistics : Stats
  errors : List ErrorEntry
  processingTime : Nat
  categories : List CategoryMeta
  dataQuality : DataQuality
deriving DecidableEq

/-- The whole serialized object (lines 1168-1198). -/
structure Output where
  metadata : Metadata
  products : List Product
deriving DecidableEq

/-- `Math.min(...)` over a spread list; `none` is the empty spread. -/
def jsMinList : List Nat → Option Nat
  | [] => none
  | x :: t =>
    match jsMinList t with
    | none => some x
    | some m => some (min x m)

/-- `Math.max(...)` over a spread list; `none` is the empty spread. -/
def jsMaxList : List Nat → Option Nat
  | [] => none
  | x :: t =>
    match jsMaxList t with
    | none => some x
    | some m => some (max x m)

/-- The object `saveProducts` serializes (lines 1168-1198): the metadata
block computed from the run state, and the full product list. -/
def saveOutput (products : List Product) (errors : List ErrorEntry)
    (stats : Stats) (now : String) (processingTime : Nat) : Output :=
  { metadata :=
    { scrapedAt := now
      totalProducts := products.length
      source := "heatershop.co.uk"
      version := "2.0.0"
      configuration := CONFIG
      statistics := stats
      errors := errors
      processingTime := processingTime
      categories := CATEGORIES.map (fun c =>
        { name := c.name
          description := c.description
          powerRange := c.powerRange
          productsExtracted :=
            (products.filter (fun p => p.category == c.name)).length })
      dataQuality :=
      { productsWithPricing :=
          (products.filter (fun p => decide (0 < p.pricing.basePrice))).length
        productsWithSpecs :=
          (products.filter (fun p => truthyWattage p.wattage)).length
        productsWithImages :=
          (products.filter (fun p => decide (0 < p.images.length))).length
        averagePrice :=
          jsRound ((products.map (fun p => p.pricing.basePrice)).sum
            / (products.length : ℚ))
        powerRange :=
        { min := jsMinList ((products.map (fun p => p.wattage.getD 0)).filter
            (fun w => decide (0 < w)))
          max := jsMaxList (products.map (fun p => p.wattage.getD 0)) } } }
    products := products }

/-- Every number the metadata block contains, as rationals (used to show
what the block does not contain). -/
def metadataNumbers (m : Metadata) : List ℚ :=
  [(m.totalProducts : ℚ), (m.configuration.delay : ℚ),
   (m.configuration.maxProducts : ℚ), (m.configuration.maxRetries : ℚ),
   (m.statistics.totalRequests : ℚ), (m.statistics.successfulRequests : ℚ),
   (m.statistics.failedRequests : ℚ), (m.statistics.productsExtracted : ℚ),
   (m.statistics.categoriesProcessed : ℚ), (m.processingTime : ℚ),
   (m.dataQuality.productsWithPricing : ℚ),
   (m.dataQuality.productsWithSpecs : ℚ),
   (m.dataQuality.productsWithImages : ℚ),
   (m.dataQuality.averagePrice : ℚ)]
  ++ m.categories.map (fun c => (c.productsExtracted : ℚ))
  ++ (match m.dataQuality.powerRange.min with
      | some v => [(v : ℚ)] | none => [])
  ++ (match m.dataQuality.powerRange.max with
      | some v => [(v : ℚ)] | none => [])
  ++ m.errors.map (fun e =>
      match e.tag with
      | ErrorTag.fetchFail rc => (rc : ℚ)
      | ErrorTag.extractFail _ => 0)

/-- First probe product of the C5 counterexample: price 111, 515 W. -/
def priceProbeA : Product :=
  { id := "panel-heater-a", name := "Panel Heater A", category := "Panel Heaters",
    pricing := ⟨111, "GBP"⟩, wattage := some 515, images := [] }

/-- Second probe product of the C5 counterexample: price 333, 717 W. -/
def priceProbeB : Product :=
  { id := "panel-heater-b", name := "Panel Heater B", category := "Panel Heaters",
    pricing := ⟨333, "GBP"⟩, wattage := some 717, images := [] }

/-! ## JSON serialization (C8)

`saveProducts` writes `JSON.stringify(output, null, 2)` to the output file
and the round-trip claim reads it back with `JSON.parse`.  JSON values are
modelled by a mutual inductive.  Numbers are scaled decimals — sign,
mantissa, exponent, denoting ±mantissa / 10^exponent — which covers exactly
the numeric fragment the scraper emits (integers and two-decimal prices);
the shortest-representation printing of binary doubles is outside the
model.  The printer emits the canonical compact rendering: the `null, 2`
indent argument of `JSON.stringify` only inserts whitespace between tokens,
which the parser model skips wherever the JSON grammar allows it.  The
parser is a recursive-descent `JSON.parse` model with an explicit fuel;
`jsonParse` instantiates the fuel with the input length. -/

mutual
inductive Json where
  | null
  | bool (b : Bool)
  | num (neg : Bool) (mantissa : Nat) (exponent : Nat)
  | str (s : String)
  | arr (xs : JsonList)
  | obj (xs : JsonObj)

inductive JsonList where
  | nil
  | cons (hd : Json) (tl : JsonList)

inductive JsonObj where
  | nil
  | cons (key : String) (val : Json) (tl : JsonObj)
end

/-- The opening brace character. -/
def lbrace : Char := Char.ofNat 123

/-- The closing brace character. -/
def rbrace : Char := Char.ofNat 125

/-- The decimal digit character for `d < 10`. -/
def digitChar (d : Nat) : Char := Char.ofNat (48 + d)

/-- The lowercase hexadecimal digit character for `v < 16`. -/
def hexDigit (v : Nat) : Char :=
  if v < 10 then digitChar v else Char.ofNat (87 + v)

/-- The most-significant-first decimal digits of `n` (`"0"` for zero). -/
def natToChars (n : Nat) : List Char :=
  if n = 0 then ['0'] else (Nat.digits 10 n).reverse.map digitChar

/-- Left-pad a digit string with zeros to length at least `k`. -/
def padDigits (l : List Char) (k : Nat) : List Char :=
  List.replicate (k - l.length) '0' ++ l

/-- Render a scaled decimal: sign, integer digits, and — when the exponent
is positive — a dot and the `e` fractional digits. -/
def printNum (neg : Bool) (m e : Nat) : List Char :=
  let ds := padDigits (natToChars m) (e + 1)
  (if neg then ['-'] else []) ++
    (if e = 0 then ds
     else ds.take (ds.length - e) ++ '.' :: ds.drop (ds.length - e))

/-- The escape of one string character, as `JSON.stringify` emits it. -/
def escChar (c : Char) : List Char :=
  if c = '"' then ['\\', '"']
  else if c = '\\' then ['\\', '\\']
  else if c = '\n' then ['\\', 'n']
  else if c = '\r' then ['\\', 'r']
  else if c = '\t' then ['\\', 't']
  else if c.toNat = 8 then ['\\', 'b']
  else if c.toNat = 12 then ['\\', 'f']
  else if c.toNat < 32 then
    ['\\', 'u', '0', '0', hexDigit (c.toNat / 16), hexDigit (c.toNat % 16)]
  else [c]

/-- The escaped body of a JSON string literal. -/
def escString : List Char → List Char
  | [] => []
  | c :: t => escChar c ++ escString t

mutual

/-- Compact `JSON.stringify` of a value. -/
def printJson : Json → List Char
  | Json.null => ['n', 'u', 'l', 'l']
  | Json.bool true => ['t', 'r', 'u', 'e']
  | Json.bool false => ['f', 'a', 'l', 's', 'e']
  | Json.num neg m e => printNum neg m e
  | Json.str s => '"' :: (escString s.data ++ ['"'])
  | Json.arr JsonList.nil => ['[', ']']
  | Json.arr (JsonList.cons x xs) =>
    '[' :: (printJson x ++ printItemsRest xs ++ [']'])
  | Json.obj JsonObj.nil => [lbrace, rbrace]
  | Json.obj (JsonObj.cons k v xs) =>
    lbrace :: (printKV k v ++ printMembersRest xs ++ [rbrace])

/-- The remaining array items, each preceded by a comma. -/
def printItemsRest : JsonList → List Char
  | JsonList.nil => []
  | JsonList.cons x xs => ',' :: (printJson x ++ printItemsRest xs)

/-- One `"key":value` member. -/
def printKV (k : String) (v : Json) : List Char :=
  '"' :: (escString k.data ++ '"' :: ':' :: printJson v)

/-- The remaining object members, each preceded by a comma. -/
def printMembersRest : JsonObj → List Char
  | JsonObj.nil => []
  | JsonObj.cons k v xs => ',' :: (printKV k v ++ printMembersRest xs)

end

mutual

/-- Fuel bound for parsing a printed value. -/
def sizeJ : Json → Nat
  | Json.null => 1
  | Json.bool _ => 1
  | Json.num _ _ _ => 1
  | Json.str s => s.data.length + 1
  | Json.arr xs => sizeL xs + 1
  | Json.obj xs => sizeO xs + 1

/-- Fuel bound for the items of an array. -/
def sizeL : JsonList → Nat
  | JsonList.nil => 0
  | JsonList.cons x xs => max (sizeJ x) (sizeL xs) + 1

/-- Fuel bound for the members of an object. -/
def sizeO : JsonObj → Nat
  | JsonObj.nil => 0
  | JsonObj.cons k v xs =>
    max (k.data.length + 1) (max (sizeJ v) (sizeO xs)) + 1

end

/-- The whitespace `JSON.parse` skips between tokens. -/
def isJsonWs (c : Char) : Bool :=
  c = ' ' || c = '\t' || c = '\n' || c = '\r'

/-- Skip insignificant whitespace. -/
def skipWs (l : List Char) : List Char := l.dropWhile isJsonWs

/-- Read one hexadecimal digit. -/
def parseHexDigit (c : Char) : Option Nat :=
  if isDigitChar c then some (c.toNat - 48)
  else if 97 ≤ c.toNat && c.toNat ≤ 102 then some (c.toNat - 87)
  else if 65 ≤ c.toNat && c.toNat ≤ 70 then some (c.toNat - 55)
  else none

/-- Decode one single-character escape. -/
def unescape (e : Char) : Option Char :=
  if e = '"' then some '"'
  else if e = '\\' then some '\\'
  else if e = '/' then some '/'
  else if e = 'n' then some '\n'
  else if e = 'r' then some '\r'
  else if e = 't' then some '\t'
  else if e = 'b' then some (Char.ofNat 8)
  else if e = 'f' then some (Char.ofNat 12)
  else none

/-- Read a string-literal body up to its closing quote, decoding escapes. -/
def parseStringBody : Nat → List Char → Option (List Char × List Char)
  | 0, _ => none
  | _ + 1, [] => none
  | fuel + 1, c :: t =>
    if c = '"' then some ([], t)
    else if c = '\\' then
      match t with
      | [] => none
      | e :: t2 =>
        if e = 'u' then
          match t2 with
          | h1 :: h2 :: h3 :: h4 :: t6 =>
            match parseHexDigit h1, parseHexDigit h2,
                parseHexDigit h3, parseHexDigit h4 with
            | some v1, some v2, some v3, some v4 =>
              (parseStringBody fuel t6).map
                (fun p =>
                  (Char.ofNat (((v1 * 16 + v2) * 16 + v3) * 16 + v4) :: p.1,
                   p.2))
            | _, _, _, _ => none
          | _ => none
        else
          match unescape e with
          | some d => (parseStringBody fuel t2).map (fun p => (d :: p.1, p.2))
          | none => none
    else (parseStringBody fuel t).map (fun p => (c :: p.1, p.2))

/-- Read an unsigned number: integer digits and an optional fraction.
Returns the mantissa, the exponent (number of fractional digits) and the
rest. -/
def parseNumNat (t : List Char) : Option (Nat × Nat × List Char) :=
  let ds := t.takeWhile isDigitChar
  let r := t.dropWhile isDigitChar
  if ds.isEmpty then none
  else if r.head? = some '.' then
    let fs := r.tail.takeWhile isDigitChar
    if fs.isEmpty then none
    else some (natOfDigits (ds ++ fs), fs.length, r.tail.dropWhile isDigitChar)
  else some (natOfDigits ds, 0, r)

/-- Read a number token (optional minus sign, then digits). -/
def parseNum (s : List Char) : Option (Json × List Char) :=
  match s with
  | [] => none
  | c :: t =>
    if c = '-' then
      (parseNumNat t).map (fun p => (Json.num true p.1 p.2.1, p.2.2))
    else
      (parseNumNat (c :: t)).map (fun p => (Json.num false p.1 p.2.1, p.2.2))

mutual

/-- Parse one JSON value. -/
def parseValue : Nat → List Char → Option (Json × List Char)
  | 0, _ => none
  | fuel + 1, s =>
    match skipWs s with
    | [] => none
    | c :: t =>
      if c = 'n' then
        match t with
        | 'u' :: 'l' :: 'l' :: r => some (Json.null, r)
        | _ => none
      else if c = 't' then
        match t with
        | 'r' :: 'u' :: 'e' :: r => some (Json.bool true, r)
        | _ => none
      else if c = 'f' then
        match t with
        | 'a' :: 'l' :: 's' :: 'e' :: r => some (Json.bool false, r)
        | _ => none
      else if c = '"' then
        (parseStringBody (fuel + 1) t).map
          (fun p => (Json.str (String.mk p.1), p.2))
      else if c = '-' || isDigitChar c then parseNum (c :: t)
      else if c = '[' then
        match skipWs t with
        | [] => none
        | c2 :: r2 =>
          if c2 = ']' then some (Json.arr JsonList.nil, r2)
          else
            (parseItems fuel (c2 :: r2)).map (fun p => (Json.arr p.1, p.2))
      else if c = lbrace then
        match skipWs t with
        | [] => none
        | c2 :: r2 =>
          if c2 = rbrace then some (Json.obj JsonObj.nil, r2)
          else
            (parseMembers fuel (c2 :: r2)).map (fun p => (Json.obj p.1, p.2))
      else none

/-- Parse the items of a non-empty array, up to the closing bracket. -/
def parseItems : Nat → List Char → Option (JsonList × List Char)
  | 0, _ => none
  | fuel + 1, s =>
    (parseValue fuel s).bind fun p =>
      match skipWs p.2 with
      | [] => none
      | c :: r2 =>
        if c = ',' then
          (parseItems fuel r2).map (fun q => (JsonList.cons p.1 q.1, q.2))
        else if c = ']' then some (JsonList.cons p.1 JsonList.nil, r2)
        else none

/-- Parse the members of a non-empty object, up to the closing brace. -/
def parseMembers : Nat → List Char → Option (JsonObj × List Char)
  | 0, _ => none
  | fuel + 1, s =>
    match skipWs s with
    | [] => none
    | c :: t =>
      if c = '"' then
        (parseStringBody (fuel + 1) t).bind fun kp =>
          match skipWs kp.2 with
          | [] => none
          | c2 :: r2 =>
            if c2 = ':' then
              (parseValue fuel r2).bind fun vp =>
                match skipWs vp.2 with
                | [] => none
                | c3 :: r3 =>
                  if c3 = ',' then
                    (parseMembers fuel r3).map
                      (fun q => (JsonObj.cons (String.mk kp.1) vp.1 q.1, q.2))
                  else if c3 = rbrace then
                    some (JsonObj.cons (String.mk kp.1) vp.1 JsonObj.nil, r3)
                  else none
            else none
      else none

end

/-- `JSON.parse`: parse a value and require only whitespace after it. -/
def jsonParse (s : List Char) : Option Json :=
  match parseValue (s.length + 1) s with
  | some (v, r) => if (skipWs r).isEmpty then some v else none
  | none => none

/-- What must follow a printed number for its token to end: nothing, or a
character that is neither a digit nor a dot. -/
def numStop : List Char → Prop
  | [] => True
  | c :: _ => isDigitChar c = false ∧ c ≠ '.'

/-- The `{ metadata, products }` object `saveProducts` serializes, with the
product list as the JSON array the in-memory JS objects form. -/
def outputObjJson (meta : Json) (ps : JsonList) : Json :=
  Json.obj (JsonObj.cons "metadata" meta
    (JsonObj.cons "products" (Json.arr ps) JsonObj.nil))

/-- Lookup inside an object's member list (first hit). -/
def objLookupIn (k : String) : JsonObj → Option Json
  | JsonObj.nil => none
  | JsonObj.cons key v xs => if key = k then some v else objLookupIn k xs

/-- Look up a top-level key of a JSON object. -/
def objLookup (k : String) : Json → Option Json
  | Json.obj xs => objLookupIn k xs
  | _ => none

/-- Length of a JSON array's item list. -/
def jsonListLength : JsonList → Nat
  | JsonList.nil => 0
  | JsonList.cons _ xs => jsonListLength xs + 1

/-! ## Helper lemmas for generateId -/

theorem isSlugChar_slugChar (c : Char) : isSlugChar (slugChar c) = true := by
  unfold slugChar isSlugChar
  by_cases h : isLowerAlnum c = true
  · simp [h]
  · simp [h]

theorem mem_collapseHyphens {c : Char} :
    ∀ {l : List Char}, c ∈ collapseHyphens l → c ∈ l
  | [], h => by simp [collapseHyphens] at h
  | [a], h => by simpa [collapseHyphens] using h
  | a :: b :: rest, h => by
    unfold collapseHyphens at h
    by_cases hab : (a = '-' && b = '-') = true
    · rw [if_pos hab] at h
      exact List.mem_cons_of_mem a (mem_collapseHyphens h)
    · rw [if_neg hab] at h
      rcases List.mem_cons.mp h with h1 | h2
      · exact h1 ▸ List.mem_cons_self a _
      · exact List.mem_cons_of_mem a (mem_collapseHyphens h2)

theorem collapseHyphens_cons_head (b : Char) (rest : List Char) :
    ∃ t, collapseHyphens (b :: rest) = b :: t := by
  induction rest generalizing b with
  | nil => exact ⟨[], rfl⟩
  | cons c r ih =>
    unfold collapseHyphens
    by_cases hbc : (b = '-' && c = '-') = true
    · rw [if_pos hbc]
      have hb : b = '-' := by
        rcases Bool.and_eq_true_iff.mp hbc with ⟨h1, _⟩
        exact of_decide_eq_true h1
      have hc : c = '-' := by
        rcases Bool.and_eq_true_iff.mp hbc with ⟨_, h2⟩
        exact of_decide_eq_true h2
      rcases ih c with ⟨t, ht⟩
      exact ⟨t, by rw [ht, hb, hc]⟩
    · rw [if_neg hbc]
      exact ⟨collapseHyphens (c :: r), rfl⟩

theorem noAdjHyphens_collapseHyphens :
    ∀ l : List Char, noAdjHyphens (collapseHyphens l) = true := by
  intro l
  induction l with
  | nil => rfl
  | cons a t ih =>
    cases t with
    | nil => rfl
    | cons b rest =>
      unfold collapseHyphens
      by_cases hab : (a = '-' && b = '-') = true
      · rw [if_pos hab]; exact ih
      · rw [if_neg hab]
        rcases collapseHyphens_cons_head b rest with ⟨t, ht⟩
        rw [ht]
        rw [ht] at ih
        show (!(a = '-' && b = '-') && noAdjHyphens (b :: t)) = true
        rw [Bool.and_eq_true, Bool.not_eq_true']
        exact ⟨Bool.not_eq_true _ ▸ hab, ih⟩

theorem collapseHyphens_eq_self :
    ∀ l : List Char, noAdjHyphens l = true → collapseHyphens l = l := by
  intro l
  induction l with
  | nil => intro _; rfl
  | cons a t ih =>
    cases t with
    | nil => intro _; rfl
    | cons b rest =>
      intro h
      have h' : (!(a = '-' && b = '-') && noAdjHyphens (b :: rest)) = true := h
      rw [Bool.and_eq_true, Bool.not_eq_true'] at h'
      unfold collapseHyphens
      rw [if_neg (by simp [h'.1]), ih h'.2]

theorem noAdjHyphens_tail {a : Char} {t : List Char} :
    noAdjHyphens (a :: t) = true → noAdjHyphens t = true := by
  cases t with
  | nil => intro _; rfl
  | cons b rest =>
    intro h
    have h' : (!(a = '-' && b = '-') && noAdjHyphens (b :: rest)) = true := h
    exact (Bool.and_eq_true .. ▸ h').2

theorem noAdjHyphens_take :
    ∀ (l : List Char) (n : Nat), noAdjHyphens l = true →
      noAdjHyphens (l.take n) = true := by
  intro l
  induction l with
  | nil => intro n _; simp [noAdjHyphens]
  | cons a t ih =>
    intro n h
    cases n with
    | zero => rfl
    | succ k =>
      rw [List.take_succ_cons]
      cases t with
      | nil => simp [noAdjHyphens]
      | cons b rest =>
        have h' : (!(a = '-' && b = '-') && noAdjHyphens (b :: rest)) = true := h
        rw [Bool.and_eq_true] at h'
        cases k with
        | zero => rfl
        | succ j =>
          rw [List.take_succ_cons]
          show (!(a = '-' && b = '-') && noAdjHyphens (b :: (rest.take j))) = true
          rw [Bool.and_eq_true]
          refine ⟨h'.1, ?_⟩
          have := ih (j + 1) h'.2
          rwa [List.take_succ_cons] at this

theorem mem_dropLeadingHyphen {c : Char} {l : List Char} :
    c ∈ dropLeadingHyphen l → c ∈ l := by
  cases l with
  | nil => intro h; exact h
  | cons a t =>
    simp only [dropLeadingHyphen]
    by_cases ha : a = '-'
    · rw [if_pos ha]; exact List.mem_cons_of_mem a
    · rw [if_neg ha]; exact id

theorem mem_dropTrailingHyphen {c : Char} {l : List Char} :
    c ∈ dropTrailingHyphen l → c ∈ l := by
  unfold dropTrailingHyphen
  by_cases h : l.getLast? = some '-'
  · rw [if_pos h]; exact fun hm => List.dropLast_subset l hm
  · rw [if_neg h]; exact id

theorem noAdjHyphens_dropLeadingHyphen {l : List Char} :
    noAdjHyphens l = true → noAdjHyphens (dropLeadingHyphen l) = true := by
  cases l with
  | nil => intro _; rfl
  | cons a t =>
    intro h
    simp only [dropLeadingHyphen]
    by_cases ha : a = '-'
    · rw [if_pos ha]; exact noAdjHyphens_tail h
    · rw [if_neg ha]; exact h

theorem noAdjHyphens_dropTrailingHyphen {l : List Char} :
    noAdjHyphens l = true → noAdjHyphens (dropTrailingHyphen l) = true := by
  intro h
  unfold dropTrailingHyphen
  by_cases hl : l.getLast? = some '-'
  · rw [if_pos hl, List.dropLast_eq_take]
    exact noAdjHyphens_take l _ h
  · rw [if_neg hl]; exact h

theorem head?_dropLeadingHyphen {l : List Char} :
    noAdjHyphens l = true → (dropLeadingHyphen l).head? ≠ some '-' := by
  cases l with
  | nil => intro _ h; exact Option.noConfusion h
  | cons a t =>
    intro h
    simp only [dropLeadingHyphen]
    by_cases ha : a = '-'
    · rw [if_pos ha]
      cases t with
      | nil => intro h'; exact Option.noConfusion h'
      | cons b r =>
        have h' : (!(a = '-' && b = '-') && noAdjHyphens (b :: r)) = true := h
        rw [Bool.and_eq_true, Bool.not_eq_true'] at h'
        intro hb
        have hb' : b = '-' := by simpa using hb
        have : (a = '-' && b = '-') = true := by simp [ha, hb']
        rw [this] at h'
        exact Bool.noConfusion h'.1
    · rw [if_neg ha]
      intro hc
      exact ha (by simpa using hc)

theorem head?_dropTrailingHyphen {l : List Char} :
    l.head? ≠ some '-' → (dropTrailingHyphen l).head? ≠ some '-' := by
  intro h
  unfold dropTrailingHyphen
  by_cases hl : l.getLast? = some '-'
  · rw [if_pos hl, List.dropLast_eq_take, List.head?_take]
    by_cases hz : l.length - 1 = 0
    · rw [if_pos hz]; intro h'; exact Option.noConfusion h'
    · rw [if_neg hz]; exact h
  · rw [if_neg hl]; exact h

theorem data_generateId (name : String) :
    (generateId name).data =
      (stripEdgeHyphens
        (collapseHyphens ((jsToLowerCase name).data.map slugChar))).take 50 := rfl

theorem generateId_chars (name : String) :
    ∀ c ∈ (generateId name).data, isSlugChar c = true := by
  intro c hc
  rw [data_generateId] at hc
  have hc1 := List.take_subset 50 _ hc
  unfold stripEdgeHyphens at hc1
  have hc2 := mem_dropLeadingHyphen (mem_dropTrailingHyphen hc1)
  have hc3 := mem_collapseHyphens hc2
  rcases List.mem_map.mp hc3 with ⟨x, _, hx⟩
  rw [← hx]
  exact isSlugChar_slugChar x

theorem generateId_len (name : String) : (generateId name).length ≤ 50 := by
  show (generateId name).data.length ≤ 50
  rw [data_generateId, List.length_take]
  exact min_le_left _ _

theorem generateId_noAdj (name : String) :
    noAdjHyphens (generateId name).data = true := by
  rw [data_generateId]
  exact noAdjHyphens_take _ 50
    (noAdjHyphens_dropTrailingHyphen
      (noAdjHyphens_dropLeadingHyphen (noAdjHyphens_collapseHyphens _)))

theorem generateId_head (name : String) :
    (generateId name).data.head? ≠ some '-' := by
  rw [data_generateId]
  show ((stripEdgeHyphens _).take 50).head? ≠ some '-'
  rw [List.head?_take]
  rw [if_neg (by decide : ¬ (50 : Nat) = 0)]
  exact head?_dropTrailingHyphen
    (head?_dropLeadingHyphen (noAdjHyphens_collapseHyphens _))

theorem jsLowerChar_of_slug {c : Char} (h : isSlugChar c = true) :
    jsLowerChar c = c := by
  unfold jsLowerChar
  rw [if_neg]
  unfold isSlugChar isLowerAlnum at h
  rcases Bool.or_eq_true_iff.mp h with h1 | h2
  · rcases Bool.or_eq_true_iff.mp h1 with ha | hd
    · rw [Bool.and_eq_true] at ha
      have := of_decide_eq_true ha.1
      intro hcon
      rw [Bool.and_eq_true] at hcon
      have h90 := of_decide_eq_true hcon.2
      omega
    · rw [Bool.and_eq_true] at hd
      have := of_decide_eq_true hd.1
      have := of_decide_eq_true hd.2
      intro hcon
      rw [Bool.and_eq_true] at hcon
      have h65 := of_decide_eq_true hcon.1
      omega
  · have hc : c = '-' := of_decide_eq_true h2
    subst hc
    decide

theorem slugChar_of_slug {c : Char} (h : isSlugChar c = true) :
    slugChar c = c := by
  unfold slugChar
  unfold isSlugChar at h
  rcases Bool.or_eq_true_iff.mp h with h1 | h2
  · rw [if_pos h1]
  · have hc : c = '-' := of_decide_eq_true h2
    subst hc
    decide

theorem generateId_idem_aux (name : String)
    (h : (generateId name).data.getLast? ≠ some '-') :
    generateId (generateId name) = generateId name := by
  have hchars := generateId_chars name
  have hmap1 : (generateId name).data.map jsLowerChar = (generateId name).data := by
    have := List.map_congr_left
      (fun c hc => jsLowerChar_of_slug (hchars c hc) :
        ∀ c ∈ (generateId name).data, jsLowerChar c = id c)
    rw [this]; exact List.map_id _
  have hmap2 : (generateId name).data.map slugChar = (generateId name).data := by
    have := List.map_congr_left
      (fun c hc => slugChar_of_slug (hchars c hc) :
        ∀ c ∈ (generateId name).data, slugChar c = id c)
    rw [this]; exact List.map_id _
  have hcoll : collapseHyphens (generateId name).data = (generateId name).data :=
    collapseHyphens_eq_self _ (generateId_noAdj name)
  have hlead : dropLeadingHyphen (generateId name).data = (generateId name).data := by
    have hh := generateId_head name
    cases hd : (generateId name).data with
    | nil => rfl
    | cons a t =>
      simp only [dropLeadingHyphen]
      rw [if_neg]
      intro ha
      rw [hd] at hh
      exact hh (by rw [ha]; rfl)
  have htrail : dropTrailingHyphen (generateId name).data = (generateId name).data := by
    unfold dropTrailingHyphen
    rw [if_neg h]
  have htake : ((generateId name).data).take 50 = (generateId name).data :=
    List.take_of_length_le (generateId_len name)
  show String.mk _ = generateId name
  unfold jsToLowerCase
  show String.mk
      ((stripEdgeHyphens
        (collapseHyphens (((generateId name).data.map jsLowerChar).map slugChar))).take 50) =
      generateId name
  rw [hmap1, hmap2]
  unfold stripEdgeHyphens
  rw [hcoll, hlead, htrail, htake]

/-! ## Claim theorems for generateId and generateSku -/

/-- C2 counterexample: `generateId` is not idempotent.  On a 51-character
name whose slug is truncated by `substring(0, 50)` right after a hyphen, the
result ends in a hyphen, and a second application strips that hyphen and
returns a strictly shorter string. -/
theorem generateId_not_idempotent :
    generateId (generateId truncatedSlugName) ≠ generateId truncatedSlugName := by
  decide

/-- C2 (amended): for every product name, `generateId` returns only lowercase
alphanumeric characters and hyphens, is at most 50 characters long, contains
no two adjacent hyphens, and maps "Panel Heater 600W!!" to
"panel-heater-600w"; it is idempotent for every name whose result does not
end in a hyphen — the one exception, created only when the 50-character
truncation cuts directly after a hyphen, is the failure the counterexample
exhibits.  Determinism holds because the embedding is a pure function of the
name. -/
theorem generateId_props (name : String) :
    (∀ c ∈ (generateId name).data, isSlugChar c = true) ∧
    (generateId name).length ≤ 50 ∧
    noAdjHyphens (generateId name).data = true ∧
    ((generateId name).data.getLast? ≠ some '-' →
      generateId (generateId name) = generateId name) ∧
    generateId "Panel Heater 600W!!" = "panel-heater-600w" :=
  ⟨generateId_chars name, generateId_len name, generateId_noAdj name,
   generateId_idem_aux name, by decide⟩

/-- C3: `generateSku name wattage` is exactly the first three characters of
the name uppercased, then a hyphen, the wattage, and a trailing `W`
(`substring(0, 3)` takes characters, which are letters for the catalogue's
product names); for example `generateSku "Panel Heater 600W!!" 600` is
`"PAN-600W"`. -/
theorem generateSku_format (name : String) (wattage : Nat) :
    generateSku name wattage = skuSpecFormat name wattage ∧
    generateSku "Panel Heater 600W!!" 600 = "PAN-600W" :=
  ⟨rfl, by decide⟩

/-! ## Helper lemmas for the selector loops -/

theorem firstSome_eq_none {α : Type} (f : String → Option α) :
    ∀ L : List String, (∀ s ∈ L, f s = none) → firstSome f L = none := by
  intro L
  induction L with
  | nil => intro _; rfl
  | cons s rest ih =>
    intro h
    unfold firstSome
    rw [h s (List.mem_cons_self s rest)]
    exact ih (fun t ht => h t (List.mem_cons_of_mem s ht))

theorem firstSome_append_hit {α : Type} (f : String → Option α) :
    ∀ (l1 : List String) (s : String) (l2 : List String) (v : α),
      (∀ t ∈ l1, f t = none) → f s = some v →
      firstSome f (l1 ++ s :: l2) = some v := by
  intro l1
  induction l1 with
  | nil =>
    intro s l2 v _ hhit
    show firstSome f (s :: l2) = some v
    unfold firstSome
    rw [hhit]
  | cons a t ih =>
    intro s l2 v hnone hhit
    show firstSome f (a :: (t ++ s :: l2)) = some v
    unfold firstSome
    rw [hnone a (List.mem_cons_self a t)]
    exact ih s l2 v (fun u hu => hnone u (List.mem_cons_of_mem a hu)) hhit

theorem generateDummyPrice_range (r : ℚ) (h0 : 0 ≤ r) (h1 : r < 1) :
    200 ≤ generateDummyPrice r ∧ generateDummyPrice r ≤ 700 := by
  unfold generateDummyPrice jsRound
  have hf0 : (20000 : ℤ) ≤ ⌊(r * 500 + 200) * 100 + 1/2⌋ := by
    apply Int.le_floor.mpr
    push_cast
    nlinarith
  have hf1 : ⌊(r * 500 + 200) * 100 + 1/2⌋ ≤ 70000 := by
    have hlt : ⌊(r * 500 + 200) * 100 + 1/2⌋ < 70001 := by
      apply Int.floor_lt.mpr
      push_cast
      nlinarith
    omega
  have hc0 : (20000 : ℚ) ≤ (⌊(r * 500 + 200) * 100 + 1/2⌋ : ℚ) := by
    exact_mod_cast hf0
  have hc1 : ((⌊(r * 500 + 200) * 100 + 1/2⌋ : ℤ) : ℚ) ≤ 70000 := by
    exact_mod_cast hf1
  constructor <;> [linarith; linarith]

/-! ## Claim theorems for the extractors -/

/-- C4: on any document in which no price-selector candidate yields text
matching the price pattern, `extractPrice` falls back to the generated dummy
price, which lies in the interval [200, 700] for every `Math.random()` draw. -/
theorem extractPrice_fallback_range (doc : Doc) (r : ℚ)
    (hall : ∀ sel ∈ priceSelectors, priceCandidate doc sel = none)
    (h0 : 0 ≤ r) (h1 : r < 1) :
    200 ≤ extractPrice doc r ∧ extractPrice doc r ≤ 700 := by
  have hfs : firstSome (priceCandidate doc) priceSelectors = none :=
    firstSome_eq_none _ _ hall
  unfold extractPrice
  rw [hfs]
  exact generateDummyPrice_range r h0 h1

/-- C4 witness: a document with no elements at all, and the draw 0, give a
price inside [200, 700]. -/
theorem extractPrice_fallback_range_witness :
    200 ≤ extractPrice (Doc.mk (fun _ => none) (fun _ => none)) 0 ∧
      extractPrice (Doc.mk (fun _ => none) (fun _ => none)) 0 ≤ 700 :=
  extractPrice_fallback_range (Doc.mk (fun _ => none) (fun _ => none)) 0
    (fun _ _ => rfl) (le_refl 0) (by norm_num)

/-- C6 counterexample: the description extractor does not return the first
candidate producing a non-empty match.  On a document whose
`.product-description` element has the non-empty text
`Compact and efficient.` (22 characters), `extractDescription` skips it —
its acceptance test requires more than 50 characters — and returns the
hardcoded fallback paragraph instead. -/
theorem extractDescription_skips_nonempty_match :
    shortDescDoc.textOf ".product-description" = some "Compact and efficient." ∧
    jsTrim "Compact and efficient." ≠ "" ∧
    extractDescription shortDescDoc ≠ "Compact and efficient." ∧
    extractDescription shortDescDoc = descriptionFallback := by
  refine ⟨rfl, by decide, by decide, by decide⟩

/-- C6 (amended): each field extractor tries its ordered CSS-selector
candidates in sequence and returns the value of the first candidate that
passes its acceptance test — non-empty trimmed text for the name, a price-
pattern match for the price, trimmed text longer than 50 characters (not
mere non-emptiness) for the description; when no candidate passes, a
fallback value (fixed strings for name and description, a generated dummy
price) is returned, so extraction always produces a value. -/
theorem extractors_first_candidate_wins (doc : Doc) (r : ℚ) :
    (∀ (l1 : List String) (sel : String) (l2 : List String) (v : String),
      nameSelectors = l1 ++ sel :: l2 →
      (∀ t ∈ l1, nameCandidate doc t = none) →
      nameCandidate doc sel = some v →
      extractProductName doc = v) ∧
    ((∀ s ∈ nameSelectors, nameCandidate doc s = none) →
      extractProductName doc = "Unknown Product") ∧
    (∀ (l1 : List String) (sel : String) (l2 : List String) (v : ℚ),
      priceSelectors = l1 ++ sel :: l2 →
      (∀ t ∈ l1, priceCandidate doc t = none) →
      priceCandidate doc sel = some v →
      extractPrice doc r = v) ∧
    ((∀ s ∈ priceSelectors, priceCandidate doc s = none) →
      extractPrice doc r = generateDummyPrice r) ∧
    (∀ (l1 : List String) (sel : String) (l2 : List String) (v : String),
      descSelectors = l1 ++ sel :: l2 →
      (∀ t ∈ l1, descCandidate doc t = none) →
      descCandidate doc sel = some v →
      extractDescription doc = v) ∧
    ((∀ s ∈ descSelectors, descCandidate doc s = none) →
      extractDescription doc = descriptionFallback) := by
  refine ⟨?_, ?_, ?_, ?_, ?_, ?_⟩
  · intro l1 sel l2 v hsplit hnone hhit
    unfold extractProductName
    rw [hsplit, firstSome_append_hit (nameCandidate doc) l1 sel l2 v hnone hhit]
  · intro hall
    unfold extractProductName
    rw [firstSome_eq_none _ _ hall]
  · intro l1 sel l2 v hsplit hnone hhit
    unfold extractPrice
    rw [hsplit, firstSome_append_hit (priceCandidate doc) l1 sel l2 v hnone hhit]
  · intro hall
    unfold extractPrice
    rw [firstSome_eq_none _ _ hall]
  · intro l1 sel l2 v hsplit hnone hhit
    unfold extractDescription
    rw [hsplit, firstSome_append_hit (descCandidate doc) l1 sel l2 v hnone hhit]
  · intro hall
    unfold extractDescription
    rw [firstSome_eq_none _ _ hall]

/-! ## Helper lemmas for makeRequest -/

theorem makeRequest_allfail_eq (fetch : FetchOracle) (url : String)
    (msgs : Nat → String) (h : ∀ k, fetch k = Except.error (msgs k)) :
    makeRequest fetch url =
      ⟨none, [⟨url, msgs maxRetries, ErrorTag.fetchFail maxRetries⟩],
       maxRetries + 1⟩ := by
  unfold makeRequest
  rw [makeRequestFrom, h 0]
  rw [makeRequestFrom, h 1]
  rw [makeRequestFrom, h 2]
  rw [makeRequestFrom, h 3]
  norm_num [maxRetries]

theorem makeRequest_firstok_eq (fetch : FetchOracle) (url : String)
    (page : String) (h : fetch 0 = Except.ok page) :
    makeRequest fetch url = ⟨some page, [], 1⟩ := by
  unfold makeRequest
  rw [makeRequestFrom, h]

theorem makeRequestFrom_attempts_le (fetch : FetchOracle) (url : String) :
    ∀ (n rc : Nat), maxRetries - rc ≤ n →
      (makeRequestFrom fetch url rc).attempts ≤ n + 1 := by
  intro n
  induction n with
  | zero =>
    intro rc hrc
    rw [makeRequestFrom]
    cases hf : fetch rc with
    | ok html => simp
    | error msg =>
      have hge : ¬ rc < maxRetries := by unfold maxRetries at hrc ⊢; omega
      simp [hge]
  | succ m ih =>
    intro rc hrc
    rw [makeRequestFrom]
    cases hf : fetch rc with
    | ok html => simp
    | error msg =>
      by_cases hlt : rc < maxRetries
      · simp only [if_pos hlt]
        have hrec := ih (rc + 1) (by unfold maxRetries at hrc ⊢; omega)
        simpa using Nat.succ_le_succ hrec
      · simp [hlt]

/-! ## Claim theorems for makeRequest and extractProductDetails -/

/-- C1 counterexample: an oracle that fails on attempts 0-2 (the initial
request and two retries, three failures in total) and succeeds on the fourth
attempt.  `makeRequest` does make that fourth attempt (`attempts = 4`) and
returns its page rather than failure, refuting the claim that the fourth
attempt is never made. -/
theorem makeRequest_makes_fourth_attempt :
    (makeRequest failThriceOracle "https://www.heatershop.co.uk/p").html =
      some "<html>heater page</html>" ∧
    (makeRequest failThriceOracle "https://www.heatershop.co.uk/p").attempts = 4 ∧
    (makeRequest failThriceOracle "https://www.heatershop.co.uk/p").errors = [] := by
  refine ⟨?_, ?_, ?_⟩ <;>
    · unfold makeRequest
      rw [makeRequestFrom]; norm_num [failThriceOracle, maxRetries]
      rw [makeRequestFrom]; norm_num [failThriceOracle, maxRetries]
      rw [makeRequestFrom]; norm_num [failThriceOracle, maxRetries]
      rw [makeRequestFrom]; norm_num [failThriceOracle, maxRetries]

/-- C1 (amended): for every URL whose fetch fails on every attempt,
`makeRequest` returns failure (null) after exactly `maxRetries` (3) retries
— four attempts in total — and records exactly one failure entry, carrying
the final retry count 3; a request that fails on its first three attempts
and would succeed on attempt 4 does make that fourth attempt (the third
retry) and succeeds; no oracle ever receives a fifth attempt. -/
theorem makeRequest_retry_contract (fetch : FetchOracle) (url : String)
    (msgs : Nat → String) (page : String) :
    ((∀ k, fetch k = Except.error (msgs k)) →
      makeRequest fetch url =
        ⟨none, [⟨url, msgs maxRetries, ErrorTag.fetchFail maxRetries⟩],
         maxRetries + 1⟩) ∧
    ((∀ k < maxRetries, fetch k = Except.error (msgs k)) →
      fetch maxRetries = Except.ok page →
      (makeRequest fetch url).html = some page ∧
      (makeRequest fetch url).attempts = maxRetries + 1) ∧
    (makeRequest fetch url).attempts ≤ maxRetries + 1 := by
  refine ⟨fun h => makeRequest_allfail_eq fetch url msgs h, ?_, ?_⟩
  · intro h hok
    have e0 := h 0 (by norm_num [maxRetries])
    have e1 := h 1 (by norm_num [maxRetries])
    have e2 := h 2 (by norm_num [maxRetries])
    unfold makeRequest
    rw [makeRequestFrom, e0]
    rw [makeRequestFrom, e1]
    rw [makeRequestFrom, e2]
    rw [makeRequestFrom]
    unfold maxRetries at hok
    rw [hok]
    norm_num [maxRetries]
  · exact makeRequestFrom_attempts_le fetch url maxRetries 0 (by omega)

/-- C7: a product URL whose fetch ultimately fails yields a null product and
exactly one error entry (the one `makeRequest` pushed after exhausting its
retries); a product whose page is fetched but whose extraction throws is
caught, dropped (null) without any further fetch attempt, and records
exactly one `product_extraction` error entry; and the end-to-end scenario of
two reachable product URLs plus one unreachable one produces exactly 2
products and 1 error entry. -/
theorem extractProductDetails_error_paths {α : Type} (fetch : FetchOracle)
    (url : String) (extract : String → Except String α) (msgs : Nat → String) :
    ((∀ k, fetch k = Except.error (msgs k)) →
      extractProductDetails fetch url extract =
        (none, [⟨url, msgs maxRetries, ErrorTag.fetchFail maxRetries⟩],
         maxRetries + 1)) ∧
    (∀ (page : String) (e : String),
      fetch 0 = Except.ok page → extract page = Except.error e →
      extractProductDetails fetch url extract =
        (none, [⟨url, e, ErrorTag.extractFail "product_extraction"⟩], 1)) ∧
    ((processProducts scenarioFetch scenarioExtract ["u1", "u2", "u3"]).1.length = 2 ∧
     (processProducts scenarioFetch scenarioExtract ["u1", "u2", "u3"]).2.length = 1) := by
  refine ⟨?_, ?_, ?_⟩
  · intro h
    unfold extractProductDetails
    rw [makeRequest_allfail_eq fetch url msgs h]
  · intro page e hok hthrow
    unfold extractProductDetails
    rw [makeRequest_firstok_eq fetch url page hok]
    simp [hthrow]
  · have h1 : scenarioFetch "u1" = fun _ => Except.ok "<h1>Infrared Heater</h1>" := by
      unfold scenarioFetch
      rw [if_neg (by decide : ¬ ("u1" : String) = "u3")]
    have h2 : scenarioFetch "u2" = fun _ => Except.ok "<h1>Infrared Heater</h1>" := by
      unfold scenarioFetch
      rw [if_neg (by decide : ¬ ("u2" : String) = "u3")]
    have h3 : ∀ k, scenarioFetch "u3" k = Except.error "connect ECONNREFUSED" := by
      intro k
      unfold scenarioFetch
      rw [if_pos rfl]
    have e1 : extractProductDetails (scenarioFetch "u1") "u1" (scenarioExtract "u1") =
        (some "<h1>Infrared Heater</h1>", [], 1) := by
      unfold extractProductDetails
      rw [makeRequest_firstok_eq _ _ "<h1>Infrared Heater</h1>" (by rw [h1])]
      simp [scenarioExtract]
    have e2 : extractProductDetails (scenarioFetch "u2") "u2" (scenarioExtract "u2") =
        (some "<h1>Infrared Heater</h1>", [], 1) := by
      unfold extractProductDetails
      rw [makeRequest_firstok_eq _ _ "<h1>Infrared Heater</h1>" (by rw [h2])]
      simp [scenarioExtract]
    have e3 : extractProductDetails (scenarioFetch "u3") "u3" (scenarioExtract "u3") =
        (none,
         [⟨"u3", "connect ECONNREFUSED", ErrorTag.fetchFail maxRetries⟩],
         maxRetries + 1) := by
      unfold extractProductDetails
      rw [makeRequest_allfail_eq (scenarioFetch "u3") "u3"
        (fun _ => "connect ECONNREFUSED") h3]
    simp [processProducts, e1, e2, e3]

/-! ## Helper lemmas for extractProductUrls and the variants -/

theorem extractProductUrls_step (fetched : Option (List String))
    (processed : List String) :
    (∀ u ∈ (extractProductUrls fetched processed).1, u ∉ processed) ∧
    (∀ u ∈ (extractProductUrls fetched processed).1,
      u ∈ (extractProductUrls fetched processed).2) ∧
    processed ⊆ (extractProductUrls fetched processed).2 := by
  cases fetched with
  | none =>
    refine ⟨?_, ?_, ?_⟩
    · intro u hu; simp [extractProductUrls] at hu
    · intro u hu; simp [extractProductUrls] at hu
    · intro u hu; exact hu
  | some candidates =>
    refine ⟨?_, ?_, ?_⟩
    · intro u hu
      simp only [extractProductUrls] at hu
      have h1 := List.take_subset 25 _ hu
      have h2 := (List.mem_filter.mp h1).2
      rw [Bool.not_eq_true'] at h2
      simpa using h2
    · intro u hu
      simp only [extractProductUrls] at hu ⊢
      exact List.mem_append_right _ (List.take_subset 25 _ hu)
    · intro u hu
      simp only [extractProductUrls]
      exact List.mem_append_left _ hu

theorem runCategories_spec :
    ∀ (fetches : List (Option (List String))) (processed : List String),
      processed ⊆ (runCategories fetches processed).2 ∧
      (∀ b ∈ (runCategories fetches processed).1, ∀ u ∈ b,
        u ∈ (runCategories fetches processed).2 ∧ u ∉ processed) ∧
      List.Pairwise (fun b1 b2 => ∀ u ∈ b1, u ∉ b2)
        (runCategories fetches processed).1 := by
  intro fetches
  induction fetches with
  | nil =>
    intro processed
    refine ⟨fun u hu => hu, ?_, ?_⟩
    · intro b hb; simp [runCategories] at hb
    · simp [runCategories]
  | cons f rest ih =>
    intro processed
    obtain ⟨hstep1, hstep2, hstep3⟩ := extractProductUrls_step f processed
    obtain ⟨ih1, ih2, ih3⟩ := ih (extractProductUrls f processed).2
    refine ⟨?_, ?_, ?_⟩
    · intro u hu
      simp only [runCategories]
      exact ih1 (hstep3 hu)
    · intro b hb u hu
      simp only [runCategories] at hb ⊢
      rcases List.mem_cons.mp hb with hb1 | hb2
      · subst hb1
        exact ⟨ih1 (hstep2 u hu), hstep1 u hu⟩
      · refine ⟨(ih2 b hb2 u hu).1, fun hmem => (ih2 b hb2 u hu).2 (hstep3 hmem)⟩
    · simp only [runCategories]
      refine List.Pairwise.cons ?_ ih3
      intro b hb u hu hub
      exact (ih2 b hb u hub).2 (hstep2 u hu)

theorem mapIdx_isDefault (f : Nat → Nat → Variant)
    (hf : ∀ i x, (f i x).isDefault = (i == 0)) (l : List Nat) :
    ∀ (i : Nat) (h : i < (l.mapIdx f).length),
      ((l.mapIdx f).get ⟨i, h⟩).isDefault = (i == 0) := by
  intro i h
  rw [List.get_eq_getElem, List.getElem_mapIdx]
  exact hf i _

theorem wattageOptions_length (w : Nat) :
    (wattageOptions w).length = 3 ∨ (wattageOptions w).length = 1 := by
  unfold wattageOptions
  by_cases h1 : (300 ≤ w && w < 600) = true
  · simp [h1]
  · by_cases h2 : (600 ≤ w && w < 1000) = true
    · simp [h1, h2]
    · simp [h1, h2]

/-! ## Claim theorems for extractProductUrls and generateEnhancedVariants -/

/-- C9: within a run no product URL is visited twice.  Per call,
`extractProductUrls` returns only URLs not yet in `processedUrls`, every
returned URL is in the updated set, and the set only grows; across all
category iterations the initial set survives into the final one, every URL
of every returned batch is in the final set and not in the initial one, and
no two batches share a URL. -/
theorem processedUrls_no_revisit (fetched : Option (List String))
    (processed : List String) (fetches : List (Option (List String)))
    (processed0 : List String) :
    ((∀ u ∈ (extractProductUrls fetched processed).1, u ∉ processed) ∧
     (∀ u ∈ (extractProductUrls fetched processed).1,
        u ∈ (extractProductUrls fetched processed).2) ∧
     processed ⊆ (extractProductUrls fetched processed).2) ∧
    (processed0 ⊆ (runCategories fetches processed0).2 ∧
     (∀ b ∈ (runCategories fetches processed0).1, ∀ u ∈ b,
        u ∈ (runCategories fetches processed0).2 ∧ u ∉ processed0) ∧
     List.Pairwise (fun b1 b2 => ∀ u ∈ b1, u ∉ b2)
        (runCategories fetches processed0).1) :=
  ⟨extractProductUrls_step fetched processed, runCategories_spec fetches processed0⟩

/-- C10: for every name, base price, specification bag and random draws,
`generateEnhancedVariants` returns a non-empty list of at most 3 variants in
which exactly the variant at index 0 has `isDefault = true`. -/
theorem generateEnhancedVariants_shape (name : String) (basePrice : ℚ)
    (specs : Specs) (stockOf : Nat → Nat) (dimsOf : Nat → String) :
    generateEnhancedVariants name basePrice specs stockOf dimsOf ≠ [] ∧
    (generateEnhancedVariants name basePrice specs stockOf dimsOf).length ≤ 3 ∧
    ∀ (i : Nat)
      (h : i < (generateEnhancedVariants name basePrice specs stockOf dimsOf).length),
      ((generateEnhancedVariants name basePrice specs stockOf dimsOf).get
        ⟨i, h⟩).isDefault = (i == 0) := by
  unfold generateEnhancedVariants
  by_cases hw : truthyWattage specs.wattage = true
  · rw [if_pos hw]
    refine ⟨?_, ?_, ?_⟩
    · apply List.ne_nil_of_length_pos
      rw [List.length_mapIdx]
      rcases wattageOptions_length (specs.wattage.getD 0) with h | h <;> omega
    · rw [List.length_mapIdx]
      rcases wattageOptions_length (specs.wattage.getD 0) with h | h <;> omega
    · exact mapIdx_isDefault _ (fun i x => rfl) _
  · rw [if_neg hw]
    refine ⟨?_, ?_, ?_⟩
    · apply List.ne_nil_of_length_pos
      rw [List.length_mapIdx]
      norm_num
    · rw [List.length_mapIdx]
      norm_num
    · exact mapIdx_isDefault _ (fun i x => rfl) _

/-! ## Helper lemmas for saveProducts -/

theorem jsMaxList_spec :
    ∀ l : List Nat, l ≠ [] →
      ∃ m, jsMaxList l = some m ∧ m ∈ l ∧ ∀ x ∈ l, x ≤ m := by
  intro l
  induction l with
  | nil => intro h; exact absurd rfl h
  | cons x t ih =>
    intro _
    cases ht : t with
    | nil =>
      refine ⟨x, ?_, List.mem_cons_self x _, ?_⟩
      · simp [jsMaxList]
      · intro y hy
        rcases List.mem_cons.mp hy with h1 | h2
        · exact h1.le
        · simp at h2
    | cons b r =>
      obtain ⟨m, hm, hmem, hbound⟩ := ih (by simp [ht])
      rw [ht] at hm hmem hbound
      refine ⟨max x m, ?_, ?_, ?_⟩
      · show jsMaxList (x :: (b :: r)) = some (max x m)
        unfold jsMaxList
        rw [hm]
      · rcases max_choice x m with h | h
        · rw [h]; exact List.mem_cons_self x _
        · rw [h]; exact List.mem_cons_of_mem x hmem
      · intro y hy
        rcases List.mem_cons.mp hy with h1 | h2
        · exact h1 ▸ le_max_left x m
        · exact le_trans (hbound y h2) (le_max_right x m)

theorem jsMinList_spec :
    ∀ l : List Nat, l ≠ [] →
      ∃ m, jsMinList l = some m ∧ m ∈ l ∧ ∀ x ∈ l, m ≤ x := by
  intro l
  induction l with
  | nil => intro h; exact absurd rfl h
  | cons x t ih =>
    intro _
    cases ht : t with
    | nil =>
      refine ⟨x, ?_, List.mem_cons_self x _, ?_⟩
      · simp [jsMinList]
      · intro y hy
        rcases List.mem_cons.mp hy with h1 | h2
        · exact h1.ge
        · simp at h2
    | cons b r =>
      obtain ⟨m, hm, hmem, hbound⟩ := ih (by simp [ht])
      rw [ht] at hm hmem hbound
      refine ⟨min x m, ?_, ?_, ?_⟩
      · show jsMinList (x :: (b :: r)) = some (min x m)
        unfold jsMinList
        rw [hm]
      · rcases min_choice x m with h | h
        · rw [h]; exact List.mem_cons_self x _
        · rw [h]; exact List.mem_cons_of_mem x hmem
      · intro y hy
        rcases List.mem_cons.mp hy with h1 | h2
        · exact h1 ▸ min_le_left x m
        · exact le_trans (min_le_right x m) (hbound y h2)

/-! ## Claim theorems for saveProducts -/

/-- C5 counterexample: on a concrete run with two products priced 111 and
333 (minimum 111, maximum 333), no number in the metadata block equals the
minimum or the maximum price — the block carries only the rounded average
price (222), so it does not contain the minimum and maximum price over all
products. -/
theorem saveProducts_metadata_lacks_min_max_price :
    [priceProbeA, priceProbeB].map (fun p => p.pricing.basePrice) = [111, 333] ∧
    (111 : ℚ) ∉ metadataNumbers (saveOutput [priceProbeA, priceProbeB] []
      ⟨0, 0, 0, 0, 0⟩ "2025-07-06T00:00:00.000Z" 0).metadata ∧
    (333 : ℚ) ∉ metadataNumbers (saveOutput [priceProbeA, priceProbeB] []
      ⟨0, 0, 0, 0, 0⟩ "2025-07-06T00:00:00.000Z" 0).metadata := by
  have eA : (515 != 0) = true := by decide
  have eB : (717 != 0) = true := by decide
  have sPP : ("Panel Heaters" == "Panel Heaters") = true := by decide
  have sPC : ("Panel Heaters" == "Ceiling Heaters") = false := by decide
  have sPI : ("Panel Heaters" == "Industrial Heaters") = false := by decide
  have sPF : ("Panel Heaters" == "Far Infrared Heaters") = false := by decide
  have sPPa : ("Panel Heaters" == "Patio Heaters") = false := by decide
  have d111 : (decide ((0 : ℚ) < 111)) = true := by
    rw [decide_eq_true_eq]; norm_num
  have d333 : (decide ((0 : ℚ) < 333)) = true := by
    rw [decide_eq_true_eq]; norm_num
  have hjr : ∀ q : ℚ, q = 222 → jsRound q = 222 := by
    intro q hq
    subst hq
    unfold jsRound
    norm_num
  refine ⟨rfl, ?_, ?_⟩ <;>
  · simp only [metadataNumbers, saveOutput, CONFIG, CATEGORIES,
      priceProbeA, priceProbeB, jsMinList, jsMaxList, List.map, List.filter,
      List.sum, List.foldr, List.length, truthyWattage, eA, eB, sPP, sPC, sPI,
      sPF, sPPa, d111, d333]
    rw [hjr _ (by norm_num)]
    norm_num

/-- C5 (amended): the output `saveProducts` writes (overwriting the fixed
output file) is the full in-memory product list plus a metadata block that
contains the run timestamps, per-category product counts, the rounded
average price over all products (not the minimum and maximum price), and
the minimum positive and maximum wattage over all products. -/
theorem saveProducts_output_spec (products : List Product)
    (errors : List ErrorEntry) (stats : Stats) (now : String) (pt : Nat) :
    (saveOutput products errors stats now pt).products = products ∧
    (saveOutput products errors stats now pt).metadata.scrapedAt = now ∧
    (saveOutput products errors stats now pt).metadata.processingTime = pt ∧
    (saveOutput products errors stats now pt).metadata.totalProducts =
      products.length ∧
    ((saveOutput products errors stats now pt).metadata.categories.map
        (fun cm => (cm.name, cm.productsExtracted)) =
      CATEGORIES.map (fun c =>
        (c.name, (products.filter (fun p => p.category == c.name)).length))) ∧
    (saveOutput products errors stats now pt).metadata.dataQuality.averagePrice =
      jsRound ((products.map (fun p => p.pricing.basePrice)).sum
        / (products.length : ℚ)) ∧
    (products ≠ [] →
      ∃ m, (saveOutput products errors stats now pt).metadata.dataQuality.powerRange.max
          = some m ∧
        m ∈ products.map (fun p => p.wattage.getD 0) ∧
        ∀ w ∈ products.map (fun p => p.wattage.getD 0), w ≤ m) ∧
    ((products.map (fun p => p.wattage.getD 0)).filter (fun w => decide (0 < w)) ≠ [] →
      ∃ m, (saveOutput products errors stats now pt).metadata.dataQuality.powerRange.min
          = some m ∧
        m ∈ (products.map (fun p => p.wattage.getD 0)).filter (fun w => decide (0 < w)) ∧
        ∀ w ∈ (products.map (fun p => p.wattage.getD 0)).filter (fun w => decide (0 < w)),
          m ≤ w) := by
  refine ⟨rfl, rfl, rfl, rfl, ?_, rfl, ?_, ?_⟩
  · simp only [saveOutput]
    rw [List.map_map]
    rfl
  · intro hne
    have hmap : products.map (fun p => p.wattage.getD 0) ≠ [] := by
      simpa using hne
    exact jsMaxList_spec _ hmap
  · intro hne
    exact jsMinList_spec _ hne

/-! ## Helper lemmas for the JSON model -/

theorem stringMk_data (s : String) : String.mk s.data = s := by cases s; rfl

theorem skipWs_cons {c : Char} {t : List Char} (h : isJsonWs c = false) :
    skipWs (c :: t) = c :: t := by
  unfold skipWs
  rw [List.dropWhile_cons, h]
  rfl

theorem parseHexDigit_hexDigit : ∀ v : Nat, v < 16 →
    parseHexDigit (hexDigit v) = some v := by decide

theorem digitChar_facts : ∀ d : Nat, d < 10 →
    isDigitChar (digitChar d) = true ∧ digitVal (digitChar d) = d ∧
    isJsonWs (digitChar d) = false := by decide

theorem digit_ne {c : Char} (h : isDigitChar c = true) :
    c ≠ 'n' ∧ c ≠ 't' ∧ c ≠ 'f' ∧ c ≠ '"' ∧ c ≠ '[' ∧ c ≠ lbrace ∧
    c ≠ '-' ∧ c ≠ ']' ∧ c ≠ rbrace ∧ c ≠ ',' ∧ c ≠ '.' ∧ c ≠ ':' ∧
    isJsonWs c = false ∧ c ≠ '\\' := by
  refine ⟨?_, ?_, ?_, ?_, ?_, ?_, ?_, ?_, ?_, ?_, ?_, ?_, ?_, ?_⟩ <;>
    first
    | (intro heq; rw [heq] at h; exact absurd h (by decide))
    | (unfold isJsonWs
       by_contra hws
       rw [Bool.not_eq_false] at hws
       rcases Bool.or_eq_true_iff.mp hws with h3 | h3
       · rcases Bool.or_eq_true_iff.mp h3 with h4 | h4
         · rcases Bool.or_eq_true_iff.mp h4 with h5 | h5
           · have hc := of_decide_eq_true h5; rw [hc] at h
             exact absurd h (by decide)
           · have hc := of_decide_eq_true h5; rw [hc] at h
             exact absurd h (by decide)
         · have hc := of_decide_eq_true h4; rw [hc] at h
           exact absurd h (by decide)
       · have hc := of_decide_eq_true h3; rw [hc] at h
         exact absurd h (by decide))

theorem escString_append (l1 l2 : List Char) :
    escString (l1 ++ l2) = escString l1 ++ escString l2 := by
  induction l1 with
  | nil => rfl
  | cons c t ih =>
    show escChar c ++ escString (t ++ l2) = (escChar c ++ escString t) ++ _
    rw [ih, List.append_assoc]

theorem escString_length_ge : ∀ l : List Char, l.length ≤ (escString l).length := by
  intro l
  induction l with
  | nil => exact Nat.le_refl 0
  | cons c t ih =>
    show t.length + 1 ≤ (escChar c ++ escString t).length
    rw [List.length_append]
    have hc : 1 ≤ (escChar c).length := by
      unfold escChar
      repeat' split
      all_goals simp
    omega

theorem psbStep_quote (f : Nat) (tail : List Char) :
    parseStringBody (f + 1) ('"' :: tail) = some ([], tail) := rfl

theorem psbStep_escQuote (f : Nat) (tail : List Char) :
    parseStringBody (f + 1) ('\\' :: '"' :: tail) =
      (parseStringBody f tail).map (fun p => ('"' :: p.1, p.2)) := rfl

theorem psbStep_escBackslash (f : Nat) (tail : List Char) :
    parseStringBody (f + 1) ('\\' :: '\\' :: tail) =
      (parseStringBody f tail).map (fun p => ('\\' :: p.1, p.2)) := rfl

theorem psbStep_escN (f : Nat) (tail : List Char) :
    parseStringBody (f + 1) ('\\' :: 'n' :: tail) =
      (parseStringBody f tail).map (fun p => ('\n' :: p.1, p.2)) := rfl

theorem psbStep_escR (f : Nat) (tail : List Char) :
    parseStringBody (f + 1) ('\\' :: 'r' :: tail) =
      (parseStringBody f tail).map (fun p => ('\r' :: p.1, p.2)) := rfl

theorem psbStep_escT (f : Nat) (tail : List Char) :
    parseStringBody (f + 1) ('\\' :: 't' :: tail) =
      (parseStringBody f tail).map (fun p => ('\t' :: p.1, p.2)) := rfl

theorem psbStep_escB (f : Nat) (tail : List Char) :
    parseStringBody (f + 1) ('\\' :: 'b' :: tail) =
      (parseStringBody f tail).map (fun p => (Char.ofNat 8 :: p.1, p.2)) := rfl

theorem psbStep_escF (f : Nat) (tail : List Char) :
    parseStringBody (f + 1) ('\\' :: 'f' :: tail) =
      (parseStringBody f tail).map (fun p => (Char.ofNat 12 :: p.1, p.2)) := rfl

theorem psbStep_escU (f : Nat) (a b c d : Char) (tail : List Char)
    (v1 v2 v3 v4 : Nat)
    (ha : parseHexDigit a = some v1) (hb : parseHexDigit b = some v2)
    (hc : parseHexDigit c = some v3) (hd : parseHexDigit d = some v4) :
    parseStringBody (f + 1) ('\\' :: 'u' :: a :: b :: c :: d :: tail) =
      (parseStringBody f tail).map
        (fun p =>
          (Char.ofNat (((v1 * 16 + v2) * 16 + v3) * 16 + v4) :: p.1, p.2)) := by
  have e1 : (('\\' : Char) = '"') = False := by decide
  have e2 : (('\\' : Char) = '\\') = True := by decide
  have e3 : (('u' : Char) = 'u') = True := by decide
  simp only [parseStringBody, e1, e2, e3, if_true, if_false, ha, hb, hc, hd]

theorem psbStep_gen (f : Nat) (c : Char) (tail : List Char)
    (h1 : ¬ c = '"') (h2 : ¬ c = '\\') :
    parseStringBody (f + 1) (c :: tail) =
      (parseStringBody f tail).map (fun p => (c :: p.1, p.2)) := by
  simp only [parseStringBody]
  rw [if_neg h1, if_neg h2]

theorem parseStringBody_esc :
    ∀ (cs : List Char) (fuel : Nat) (rest : List Char), cs.length < fuel →
      parseStringBody fuel (escString cs ++ ('"' :: rest)) = some (cs, rest) := by
  intro cs
  induction cs with
  | nil =>
    intro fuel rest hf
    cases fuel with
    | zero => omega
    | succ f => exact psbStep_quote f rest
  | cons c t ih =>
    intro fuel rest hf
    cases fuel with
    | zero => omega
    | succ f =>
      have hft : t.length < f := by
        have : (c :: t).length = t.length + 1 := rfl
        omega
      have hrec := ih f rest hft
      show parseStringBody (f + 1) ((escChar c ++ escString t) ++ ('"' :: rest)) =
        some (c :: t, rest)
      rw [List.append_assoc]
      by_cases h1 : c = '"'
      · subst h1
        rw [show escChar '"' = ['\\', '"'] from rfl]
        show parseStringBody (f + 1) ('\\' :: '"' :: (escString t ++ '"' :: rest)) = _
        rw [psbStep_escQuote, hrec]
        rfl
      by_cases h2 : c = '\\'
      · subst h2
        rw [show escChar '\\' = ['\\', '\\'] from rfl]
        show parseStringBody (f + 1) ('\\' :: '\\' :: (escString t ++ '"' :: rest)) = _
        rw [psbStep_escBackslash, hrec]
        rfl
      by_cases h3 : c = '\n'
      · subst h3
        rw [show escChar '\n' = ['\\', 'n'] from rfl]
        show parseStringBody (f + 1) ('\\' :: 'n' :: (escString t ++ '"' :: rest)) = _
        rw [psbStep_escN, hrec]
        rfl
      by_cases h4 : c = '\r'
      · subst h4
        rw [show escChar '\r' = ['\\', 'r'] from rfl]
        show parseStringBody (f + 1) ('\\' :: 'r' :: (escString t ++ '"' :: rest)) = _
        rw [psbStep_escR, hrec]
        rfl
      by_cases h5 : c = '\t'
      · subst h5
        rw [show escChar '\t' = ['\\', 't'] from rfl]
        show parseStringBody (f + 1) ('\\' :: 't' :: (escString t ++ '"' :: rest)) = _
        rw [psbStep_escT, hrec]
        rfl
      by_cases h6 : c.toNat = 8
      · have hesc : escChar c = ['\\', 'b'] := by
          unfold escChar
          rw [if_neg h1, if_neg h2, if_neg h3, if_neg h4, if_neg h5, if_pos h6]
        have hcchar : Char.ofNat 8 = c := by
          rw [← h6]
          exact Char.ofNat_toNat c
        rw [hesc]
        show parseStringBody (f + 1) ('\\' :: 'b' :: (escString t ++ '"' :: rest)) = _
        rw [psbStep_escB, hrec]
        rw [hcchar]
        rfl
      by_cases h7 : c.toNat = 12
      · have hesc : escChar c = ['\\', 'f'] := by
          unfold escChar
          rw [if_neg h1, if_neg h2, if_neg h3, if_neg h4, if_neg h5, if_neg h6,
            if_pos h7]
        have hcchar : Char.ofNat 12 = c := by
          rw [← h7]
          exact Char.ofNat_toNat c
        rw [hesc]
        show parseStringBody (f + 1) ('\\' :: 'f' :: (escString t ++ '"' :: rest)) = _
        rw [psbStep_escF, hrec]
        rw [hcchar]
        rfl
      by_cases h8 : c.toNat < 32
      · have hesc : escChar c =
            ['\\', 'u', '0', '0', hexDigit (c.toNat / 16), hexDigit (c.toNat % 16)] := by
          unfold escChar
          rw [if_neg h1, if_neg h2, if_neg h3, if_neg h4, if_neg h5, if_neg h6,
            if_neg h7, if_pos h8]
        rw [hesc]
        show parseStringBody (f + 1)
          ('\\' :: 'u' :: '0' :: '0' :: hexDigit (c.toNat / 16) ::
            hexDigit (c.toNat % 16) :: (escString t ++ '"' :: rest)) = _
        rw [psbStep_escU f '0' '0' (hexDigit (c.toNat / 16)) (hexDigit (c.toNat % 16))
          _ 0 0 (c.toNat / 16) (c.toNat % 16) rfl rfl
          (parseHexDigit_hexDigit _ (by omega))
          (parseHexDigit_hexDigit _ (by omega)), hrec]
        have harith : ((0 * 16 + 0) * 16 + c.toNat / 16) * 16 + c.toNat % 16 = c.toNat := by
          omega
        rw [harith, Char.ofNat_toNat]
        rfl
      · have hesc : escChar c = [c] := by
          unfold escChar
          rw [if_neg h1, if_neg h2, if_neg h3, if_neg h4, if_neg h5, if_neg h6,
            if_neg h7, if_neg h8]
        rw [hesc]
        show parseStringBody (f + 1) (c :: (escString t ++ '"' :: rest)) = _
        rw [psbStep_gen f c _ h1 h2, hrec]
        rfl

theorem takeWhile_all_append (p : Char → Bool) :
    ∀ (l1 l2 : List Char), (∀ c ∈ l1, p c = true) →
      (∀ c, l2.head? = some c → p c = false) →
      (l1 ++ l2).takeWhile p = l1 ∧ (l1 ++ l2).dropWhile p = l2 := by
  intro l1
  induction l1 with
  | nil =>
    intro l2 _ h2
    cases l2 with
    | nil => exact ⟨rfl, rfl⟩
    | cons c t =>
      constructor
      · rw [List.nil_append, List.takeWhile_cons, h2 c rfl]
        rfl
      · rw [List.nil_append, List.dropWhile_cons, h2 c rfl]
        rfl
  | cons a t1 ih =>
    intro l2 h1 h2
    have ha := h1 a (List.mem_cons_self a t1)
    have iht := ih l2 (fun c hc => h1 c (List.mem_cons_of_mem a hc)) h2
    constructor
    · show ((a :: (t1 ++ l2)).takeWhile p) = a :: t1
      rw [List.takeWhile_cons, ha, iht.1]
      rfl
    · show ((a :: (t1 ++ l2)).dropWhile p) = l2
      rw [List.dropWhile_cons, ha]
      simpa using iht.2

theorem natToChars_digits (n : Nat) :
    ∀ c ∈ natToChars n, isDigitChar c = true := by
  intro c hc
  unfold natToChars at hc
  by_cases hn : n = 0
  · rw [if_pos hn] at hc
    rcases List.mem_singleton.mp hc with rfl
    decide
  · rw [if_neg hn] at hc
    rcases List.mem_map.mp hc with ⟨d, hd, rfl⟩
    have hdlt : d < 10 :=
      Nat.digits_lt_base (by norm_num) (List.mem_reverse.mp hd)
    exact (digitChar_facts d hdlt).1

theorem foldl_replicate_zero :
    ∀ k : Nat, List.foldl (fun a c => a * 10 + digitVal c) 0
      (List.replicate k '0') = 0 := by
  intro k
  induction k with
  | zero => rfl
  | succ j ih =>
    rw [List.replicate_succ, List.foldl_cons]
    simpa using ih

theorem foldr_eq_ofDigits :
    ∀ l : List Nat, l.foldr (fun d x => x * 10 + d) 0 = Nat.ofDigits 10 l := by
  intro l
  induction l with
  | nil => rfl
  | cons d tl ih =>
    rw [List.foldr_cons, ih, Nat.ofDigits_cons]
    omega

theorem foldl_digits_eq :
    ∀ (l : List Nat) (a : Nat), (∀ d ∈ l, d < 10) →
      List.foldl (fun x d => x * 10 + digitVal (digitChar d)) a l =
      List.foldl (fun x d => x * 10 + d) a l := by
  intro l
  induction l with
  | nil => intro a _; rfl
  | cons d tl ih =>
    intro a h
    rw [List.foldl_cons, List.foldl_cons,
      (digitChar_facts d (h d (List.mem_cons_self d tl))).2.1]
    exact ih _ (fun x hx => h x (List.mem_cons_of_mem d hx))

theorem natOfDigits_natToChars (m : Nat) : natOfDigits (natToChars m) = m := by
  unfold natToChars
  by_cases hm : m = 0
  · rw [if_pos hm, hm]; rfl
  · rw [if_neg hm]
    unfold natOfDigits
    rw [List.foldl_map, foldl_digits_eq _ _
      (fun d hd => Nat.digits_lt_base (by norm_num) (List.mem_reverse.mp hd)),
      List.foldl_reverse, foldr_eq_ofDigits, Nat.ofDigits_digits]

theorem natOfDigits_pad (l : List Char) (k : Nat) :
    natOfDigits (padDigits l k) = natOfDigits l := by
  unfold padDigits natOfDigits
  rw [List.foldl_append, foldl_replicate_zero]

theorem padDigits_digits (l : List Char) (k : Nat)
    (h : ∀ c ∈ l, isDigitChar c = true) :
    ∀ c ∈ padDigits l k, isDigitChar c = true := by
  intro c hc
  unfold padDigits at hc
  rcases List.mem_append.mp hc with h1 | h2
  · rcases List.eq_of_mem_replicate h1 with rfl
    decide
  · exact h c h2

theorem padDigits_length (l : List Char) (k : Nat) :
    k ≤ (padDigits l k).length ∧ (padDigits l k).length = max k l.length := by
  unfold padDigits
  rw [List.length_append, List.length_replicate]
  omega

theorem parseNumNat_core (m e : Nat) (rest : List Char) (hstop : numStop rest) :
    parseNumNat
      ((if e = 0 then padDigits (natToChars m) (e + 1)
        else (padDigits (natToChars m) (e + 1)).take
            ((padDigits (natToChars m) (e + 1)).length - e) ++
          '.' :: (padDigits (natToChars m) (e + 1)).drop
            ((padDigits (natToChars m) (e + 1)).length - e)) ++ rest) =
      some (m, e, rest) := by
  have hdig : ∀ c ∈ padDigits (natToChars m) (e + 1), isDigitChar c = true :=
    padDigits_digits _ _ (natToChars_digits m)
  have hlen := (padDigits_length (natToChars m) (e + 1)).1
  have hval : natOfDigits (padDigits (natToChars m) (e + 1)) = m := by
    rw [natOfDigits_pad, natOfDigits_natToChars]
  set ds := padDigits (natToChars m) (e + 1) with hdsdef
  have hstophead : ∀ c, rest.head? = some c → isDigitChar c = false := by
    intro c hc
    cases rest with
    | nil => exact absurd hc (by simp)
    | cons r0 rr =>
      obtain ⟨hd, _⟩ := hstop
      cases Option.some.inj hc
      exact hd
  have hdsne : ds ≠ [] := by
    intro h
    rw [h] at hlen
    simp at hlen
  by_cases he : e = 0
  · rw [if_pos he]
    obtain ⟨htw, hdw⟩ := takeWhile_all_append isDigitChar ds rest hdig hstophead
    have h1 : ((ds ++ rest).takeWhile isDigitChar).isEmpty = false := by
      rw [htw, List.isEmpty_eq_false]
      exact hdsne
    have h2 : ¬ ((ds ++ rest).dropWhile isDigitChar).head? = some '.' := by
      rw [hdw]
      cases hrest : rest with
      | nil => simp
      | cons r0 rr =>
        intro hc
        rw [hrest] at hstop
        exact hstop.2 (Option.some.inj hc)
    simp only [parseNumNat]
    rw [h1]
    rw [if_neg (by simp), if_neg h2, htw, hval, he, hdw]
  · rw [if_neg he]
    have hipdig : ∀ c ∈ ds.take (ds.length - e), isDigitChar c = true :=
      fun c hc => hdig c (List.mem_of_mem_take hc)
    have hfpdig : ∀ c ∈ ds.drop (ds.length - e), isDigitChar c = true :=
      fun c hc => hdig c (List.mem_of_mem_drop hc)
    have hiplen : (ds.take (ds.length - e)).length = ds.length - e := by
      rw [List.length_take]
      omega
    have hfplen : (ds.drop (ds.length - e)).length = e := by
      rw [List.length_drop]
      omega
    have hipne : ds.take (ds.length - e) ≠ [] := by
      intro h
      rw [h] at hiplen
      simp at hiplen
      omega
    rw [List.append_assoc, List.cons_append]
    obtain ⟨htw, hdw⟩ := takeWhile_all_append isDigitChar (ds.take (ds.length - e))
      ('.' :: (ds.drop (ds.length - e) ++ rest)) hipdig
      (by intro c hc; cases Option.some.inj hc; decide)
    obtain ⟨htw2, hdw2⟩ := takeWhile_all_append isDigitChar (ds.drop (ds.length - e))
      rest hfpdig hstophead
    have hfs : ((ds.take (ds.length - e) ++
        ('.' :: (ds.drop (ds.length - e) ++ rest))).dropWhile
          isDigitChar).tail.takeWhile isDigitChar = ds.drop (ds.length - e) := by
      rw [hdw, List.tail_cons, htw2]
    have hfsne : (ds.drop (ds.length - e)) ≠ [] := by
      intro h
      rw [h] at hfplen
      simp at hfplen
      omega
    simp only [parseNumNat]
    rw [if_neg (by rw [htw]; simpa [List.isEmpty_eq_false] using hipne)]
    rw [if_pos (by rw [hdw]; rfl)]
    rw [hfs]
    rw [if_neg (by simpa [List.isEmpty_eq_false] using hfsne)]
    rw [htw, hdw, List.tail_cons, hdw2, hfplen, List.take_append_drop, hval]

theorem parseNum_printNum (neg : Bool) (m e : Nat) (rest : List Char)
    (hstop : numStop rest) :
    parseNum (printNum neg m e ++ rest) = some (Json.num neg m e, rest) := by
  have hcore := parseNumNat_core m e rest hstop
  have hdig : ∀ c ∈ padDigits (natToChars m) (e + 1), isDigitChar c = true :=
    padDigits_digits _ _ (natToChars_digits m)
  have hlen := (padDigits_length (natToChars m) (e + 1)).1
  unfold printNum
  cases neg with
  | true =>
    rw [if_pos rfl]
    rw [show (['-'] ++
      (if e = 0 then padDigits (natToChars m) (e + 1)
       else (padDigits (natToChars m) (e + 1)).take
           ((padDigits (natToChars m) (e + 1)).length - e) ++
         '.' :: (padDigits (natToChars m) (e + 1)).drop
           ((padDigits (natToChars m) (e + 1)).length - e))) ++ rest =
      '-' :: ((if e = 0 then padDigits (natToChars m) (e + 1)
       else (padDigits (natToChars m) (e + 1)).take
           ((padDigits (natToChars m) (e + 1)).length - e) ++
         '.' :: (padDigits (natToChars m) (e + 1)).drop
           ((padDigits (natToChars m) (e + 1)).length - e)) ++ rest) from by
      simp]
    simp only [parseNum]
    rw [if_pos trivial, hcore]
    rfl
  | false =>
    rw [if_neg (by simp)]
    rw [List.nil_append]
    -- the body starts with a digit
    have hbody : ∃ c t,
        (if e = 0 then padDigits (natToChars m) (e + 1)
         else (padDigits (natToChars m) (e + 1)).take
             ((padDigits (natToChars m) (e + 1)).length - e) ++
           '.' :: (padDigits (natToChars m) (e + 1)).drop
             ((padDigits (natToChars m) (e + 1)).length - e)) = c :: t ∧
        isDigitChar c = true := by
      by_cases he : e = 0
      · rw [if_pos he]
        cases hds : padDigits (natToChars m) (e + 1) with
        | nil => rw [hds] at hlen; simp at hlen
        | cons c t =>
          exact ⟨c, t, rfl, hdig c (hds ▸ List.mem_cons_self c t)⟩
      · rw [if_neg he]
        have hiplen : ((padDigits (natToChars m) (e + 1)).take
            ((padDigits (natToChars m) (e + 1)).length - e)).length =
            (padDigits (natToChars m) (e + 1)).length - e := by
          rw [List.length_take]; omega
        cases hip : (padDigits (natToChars m) (e + 1)).take
            ((padDigits (natToChars m) (e + 1)).length - e) with
        | nil =>
          rw [hip] at hiplen
          simp at hiplen
          omega
        | cons c t =>
          refine ⟨c, t ++ '.' :: (padDigits (natToChars m) (e + 1)).drop
            ((padDigits (natToChars m) (e + 1)).length - e), by rw [List.cons_append], ?_⟩
          exact hdig c (List.mem_of_mem_take (hip ▸ List.mem_cons_self c t))
    obtain ⟨c, t, hct, hcdig⟩ := hbody
    rw [hct]
    rw [hct] at hcore
    simp only [parseNum, List.cons_append]
    rw [if_neg (digit_ne hcdig).2.2.2.2.2.2.1]
    rw [show (c :: (t ++ rest)) = (c :: t) ++ rest from rfl, hcore]
    rfl

theorem printNum_shape (neg : Bool) (m e : Nat) :
    ∃ c t, printNum neg m e = c :: t ∧ (c = '-' ∨ isDigitChar c = true) := by
  have hdig : ∀ c ∈ padDigits (natToChars m) (e + 1), isDigitChar c = true :=
    padDigits_digits _ _ (natToChars_digits m)
  have hlen := (padDigits_length (natToChars m) (e + 1)).1
  unfold printNum
  cases neg with
  | true =>
    rw [if_pos rfl]
    exact ⟨'-', _, List.singleton_append, Or.inl rfl⟩
  | false =>
    rw [if_neg (by simp), List.nil_append]
    by_cases he : e = 0
    · rw [if_pos he]
      cases hds : padDigits (natToChars m) (e + 1) with
      | nil => exfalso; rw [hds] at hlen; simp at hlen
      | cons c t =>
        exact ⟨c, t, rfl, Or.inr (hdig c (hds ▸ List.mem_cons_self c t))⟩
    · rw [if_neg he]
      have hiplen : ((padDigits (natToChars m) (e + 1)).take
          ((padDigits (natToChars m) (e + 1)).length - e)).length =
          (padDigits (natToChars m) (e + 1)).length - e := by
        rw [List.length_take]; omega
      cases hip : (padDigits (natToChars m) (e + 1)).take
          ((padDigits (natToChars m) (e + 1)).length - e) with
      | nil => exfalso; rw [hip] at hiplen; simp at hiplen; omega
      | cons c t =>
        refine ⟨c, t ++ '.' :: (padDigits (natToChars m) (e + 1)).drop
          ((padDigits (natToChars m) (e + 1)).length - e),
          by rw [List.cons_append], ?_⟩
        exact Or.inr (hdig c (List.mem_of_mem_take (hip ▸ List.mem_cons_self c t)))

theorem printJson_head (v : Json) :
    ∃ c t, printJson v = c :: t ∧ isJsonWs c = false ∧ c ≠ ']' ∧ c ≠ rbrace ∧
      c ≠ ',' ∧ c ≠ ':' := by
  cases v with
  | null =>
    exact ⟨'n', ['u', 'l', 'l'], by simp [printJson], by decide, by decide,
      by decide, by decide, by decide⟩
  | bool b =>
    cases b with
    | true =>
      exact ⟨'t', ['r', 'u', 'e'], by simp [printJson], by decide, by decide,
        by decide, by decide, by decide⟩
    | false =>
      exact ⟨'f', ['a', 'l', 's', 'e'], by simp [printJson], by decide,
        by decide, by decide, by decide, by decide⟩
  | num neg m e =>
    obtain ⟨c, t, hct, hc⟩ := printNum_shape neg m e
    have hct2 : printJson (Json.num neg m e) = c :: t := by
      rw [show printJson (Json.num neg m e) = printNum neg m e from by
        simp [printJson]]
      exact hct
    rcases hc with rfl | hdigc
    · exact ⟨'-', t, hct2, by decide, by decide, by decide, by decide, by decide⟩
    · obtain ⟨_, _, _, _, _, _, _, hbr1, hbr2, hcomma, _, hcolon, hws, _⟩ :=
        digit_ne hdigc
      exact ⟨c, t, hct2, hws, hbr1, hbr2, hcomma, hcolon⟩
  | str s =>
    exact ⟨'"', escString s.data ++ ['"'], by simp [printJson], by decide,
      by decide, by decide, by decide, by decide⟩
  | arr xs =>
    cases xs with
    | nil =>
      exact ⟨'[', [']'], by simp [printJson], by decide, by decide, by decide,
        by decide, by decide⟩
    | cons x xs =>
      exact ⟨'[', printJson x ++ printItemsRest xs ++ [']'], by simp [printJson],
        by decide, by decide, by decide, by decide, by decide⟩
  | obj xs =>
    cases xs with
    | nil =>
      exact ⟨lbrace, [rbrace], by simp [printJson], by decide, by decide,
        by decide, by decide, by decide⟩
    | cons k v xs =>
      exact ⟨lbrace, printKV k v ++ printMembersRest xs ++ [rbrace],
        by simp [printJson], by decide, by decide, by decide, by decide,
        by decide⟩

theorem pvStep_null (f : Nat) (rest : List Char) :
    parseValue (f + 1) ('n' :: 'u' :: 'l' :: 'l' :: rest) =
      some (Json.null, rest) := rfl

theorem pvStep_true (f : Nat) (rest : List Char) :
    parseValue (f + 1) ('t' :: 'r' :: 'u' :: 'e' :: rest) =
      some (Json.bool true, rest) := rfl

theorem pvStep_false (f : Nat) (rest : List Char) :
    parseValue (f + 1) ('f' :: 'a' :: 'l' :: 's' :: 'e' :: rest) =
      some (Json.bool false, rest) := rfl

theorem pvStep_str (f : Nat) (t : List Char) :
    parseValue (f + 1) ('"' :: t) =
      (parseStringBody (f + 1) t).map
        (fun p => (Json.str (String.mk p.1), p.2)) := rfl

theorem pvStep_arrNil (f : Nat) (rest : List Char) :
    parseValue (f + 1) ('[' :: ']' :: rest) = some (Json.arr JsonList.nil, rest) := rfl

theorem pvStep_objNil (f : Nat) (rest : List Char) :
    parseValue (f + 1) (lbrace :: rbrace :: rest) =
      some (Json.obj JsonObj.nil, rest) := rfl

theorem pvStep_minus (f : Nat) (t : List Char) :
    parseValue (f + 1) ('-' :: t) = parseNum ('-' :: t) := rfl

theorem piStep (f : Nat) (s : List Char) :
    parseItems (f + 1) s =
      (parseValue f s).bind fun p =>
        match skipWs p.2 with
        | [] => none
        | c :: r2 =>
          if c = ',' then
            (parseItems f r2).map (fun q => (JsonList.cons p.1 q.1, q.2))
          else if c = ']' then some (JsonList.cons p.1 JsonList.nil, r2)
          else none := rfl

theorem pvStep_digit (f : Nat) (c : Char) (t : List Char)
    (h : isDigitChar c = true) :
    parseValue (f + 1) (c :: t) = parseNum (c :: t) := by
  obtain ⟨hn, ht, hf, hq, _, _, _, _, _, _, _, _, hws, _⟩ := digit_ne h
  simp only [parseValue, skipWs_cons hws]
  rw [if_neg hn, if_neg ht, if_neg hf, if_neg hq,
    if_pos (by rw [Bool.or_eq_true]; right; exact h)]

theorem pvStep_arrCons (f : Nat) (c : Char) (t : List Char)
    (hws : isJsonWs c = false) (hbr : ¬ c = ']') :
    parseValue (f + 1) ('[' :: c :: t) =
      (parseItems f (c :: t)).map (fun p => (Json.arr p.1, p.2)) := by
  show (match skipWs (c :: t) with
    | [] => none
    | c2 :: r2 =>
      if c2 = ']' then some (Json.arr JsonList.nil, r2)
      else (parseItems f (c2 :: r2)).map (fun p => (Json.arr p.1, p.2))) =
    (parseItems f (c :: t)).map (fun p => (Json.arr p.1, p.2))
  simp only [skipWs_cons hws]
  rw [if_neg hbr]

theorem pvStep_objCons (f : Nat) (c : Char) (t : List Char)
    (hws : isJsonWs c = false) (hbr : ¬ c = rbrace) :
    parseValue (f + 1) (lbrace :: c :: t) =
      (parseMembers f (c :: t)).map (fun p => (Json.obj p.1, p.2)) := by
  show (match skipWs (c :: t) with
    | [] => none
    | c2 :: r2 =>
      if c2 = rbrace then some (Json.obj JsonObj.nil, r2)
      else (parseMembers f (c2 :: r2)).map (fun p => (Json.obj p.1, p.2))) =
    (parseMembers f (c :: t)).map (fun p => (Json.obj p.1, p.2))
  simp only [skipWs_cons hws]
  rw [if_neg hbr]

theorem pmStep (f : Nat) (t : List Char) :
    parseMembers (f + 1) ('"' :: t) =
      (parseStringBody (f + 1) t).bind fun kp =>
        match skipWs kp.2 with
        | [] => none
        | c2 :: r2 =>
          if c2 = ':' then
            (parseValue f r2).bind fun vp =>
              match skipWs vp.2 with
              | [] => none
              | c3 :: r3 =>
                if c3 = ',' then
                  (parseMembers f r3).map
                    (fun q => (JsonObj.cons (String.mk kp.1) vp.1 q.1, q.2))
                else if c3 = rbrace then
                  some (JsonObj.cons (String.mk kp.1) vp.1 JsonObj.nil, r3)
                else none
          else none := rfl

theorem sizeJ_pos : ∀ v : Json, 1 ≤ sizeJ v := by
  intro v
  cases v <;> simp [sizeJ]

theorem parse_print_mega : ∀ fuel : Nat,
    (∀ (v : Json) (rest : List Char), sizeJ v < fuel → numStop rest →
      parseValue fuel (printJson v ++ rest) = some (v, rest)) ∧
    (∀ (x : Json) (xs : JsonList) (rest : List Char),
      sizeL (JsonList.cons x xs) < fuel →
      parseItems fuel (printJson x ++ (printItemsRest xs ++ (']' :: rest))) =
        some (JsonList.cons x xs, rest)) ∧
    (∀ (k : String) (v : Json) (xs : JsonObj) (rest : List Char),
      sizeO (JsonObj.cons k v xs) < fuel →
      parseMembers fuel
          ('"' :: (escString k.data ++
            ('"' :: (':' :: (printJson v ++
              (printMembersRest xs ++ (rbrace :: rest))))))) =
        some (JsonObj.cons k v xs, rest)) ∧
    (∀ v : Json, sizeJ v < fuel → sizeJ v ≤ (printJson v).length) ∧
    (∀ xs : JsonList, sizeL xs < fuel →
      sizeL xs ≤ (printItemsRest xs).length) ∧
    (∀ xs : JsonObj, sizeO xs < fuel →
      sizeO xs ≤ (printMembersRest xs).length) := by
  intro fuel
  induction fuel with
  | zero =>
    refine ⟨?_, ?_, ?_, ?_, ?_, ?_⟩
    · intro v _ h _; exact absurd h (by omega)
    · intro x xs _ h; exact absurd h (by omega)
    · intro k v xs _ h; exact absurd h (by omega)
    · intro v h; exact absurd h (by omega)
    · intro xs h; exact absurd h (by omega)
    · intro xs h; exact absurd h (by omega)
  | succ f ih =>
    obtain ⟨ih1, ih2, ih3, ih4, ih5, ih6⟩ := ih
    refine ⟨?_, ?_, ?_, ?_, ?_, ?_⟩
    · -- parseValue round trip
      intro v rest hsize hstop
      cases v with
      | null =>
        rw [show printJson Json.null = ['n', 'u', 'l', 'l'] from by
          simp [printJson]]
        exact pvStep_null f rest
      | bool b =>
        cases b with
        | true =>
          rw [show printJson (Json.bool true) = ['t', 'r', 'u', 'e'] from by
            simp [printJson]]
          exact pvStep_true f rest
        | false =>
          rw [show printJson (Json.bool false) = ['f', 'a', 'l', 's', 'e'] from by
            simp [printJson]]
          exact pvStep_false f rest
      | num neg m e =>
        rw [show printJson (Json.num neg m e) = printNum neg m e from by
          simp [printJson]]
        obtain ⟨c, t, hct, hc⟩ := printNum_shape neg m e
        rw [hct, List.cons_append]
        have hstep : parseValue (f + 1) (c :: (t ++ rest)) =
            parseNum (c :: (t ++ rest)) := by
          rcases hc with rfl | hdigc
          · exact pvStep_minus f (t ++ rest)
          · exact pvStep_digit f c (t ++ rest) hdigc
        rw [hstep, show c :: (t ++ rest) = (c :: t) ++ rest from rfl, ← hct]
        exact parseNum_printNum neg m e rest hstop
      | str s =>
        rw [show printJson (Json.str s) = '"' :: (escString s.data ++ ['"']) from by
          simp [printJson]]
        rw [List.cons_append, pvStep_str f _]
        have hfuel : s.data.length < f + 1 := by
          have : sizeJ (Json.str s) = s.data.length + 1 := by simp [sizeJ]
          omega
        rw [show (escString s.data ++ ['"']) ++ rest =
          escString s.data ++ ('"' :: rest) from by simp]
        rw [parseStringBody_esc s.data (f + 1) rest hfuel]
        rfl
      | arr xs =>
        cases xs with
        | nil =>
          rw [show printJson (Json.arr JsonList.nil) = ['[', ']'] from by
            simp [printJson]]
          exact pvStep_arrNil f rest
        | cons x xs =>
          rw [show printJson (Json.arr (JsonList.cons x xs)) =
            '[' :: (printJson x ++ printItemsRest xs ++ [']']) from by
            simp [printJson]]
          rw [List.cons_append]
          rw [show (printJson x ++ printItemsRest xs ++ [']']) ++ rest =
            printJson x ++ (printItemsRest xs ++ (']' :: rest)) from by simp]
          obtain ⟨c, t, hct, hws, hbr, _, _, _⟩ := printJson_head x
          rw [hct, List.cons_append, pvStep_arrCons f c _ hws hbr]
          rw [show c :: (t ++ (printItemsRest xs ++ (']' :: rest))) =
            (c :: t) ++ (printItemsRest xs ++ (']' :: rest)) from rfl, ← hct]
          rw [ih2 x xs rest (by
            simp only [sizeJ, sizeL] at hsize ⊢
            omega)]
          rfl
      | obj xs =>
        cases xs with
        | nil =>
          rw [show printJson (Json.obj JsonObj.nil) = [lbrace, rbrace] from by
            simp [printJson]]
          exact pvStep_objNil f rest
        | cons k v xs =>
          rw [show printJson (Json.obj (JsonObj.cons k v xs)) =
            lbrace :: (printKV k v ++ printMembersRest xs ++ [rbrace]) from by
            simp [printJson]]
          rw [List.cons_append]
          rw [show (printKV k v ++ printMembersRest xs ++ [rbrace]) ++ rest =
            printKV k v ++ (printMembersRest xs ++ (rbrace :: rest)) from by simp]
          rw [show printKV k v ++ (printMembersRest xs ++ (rbrace :: rest)) =
            '"' :: (escString k.data ++
              ('"' :: (':' :: (printJson v ++
                (printMembersRest xs ++ (rbrace :: rest)))))) from by
            simp [printKV]]
          rw [pvStep_objCons f '"' _ (by decide) (by decide)]
          rw [ih3 k v xs rest (by
            simp only [sizeJ] at hsize
            omega)]
          rfl
    · -- parseItems round trip
      intro x xs rest hsize
      have hx : sizeJ x < f := by
        simp only [sizeL] at hsize
        omega
      cases xs with
      | nil =>
        rw [piStep]
        rw [show printItemsRest JsonList.nil ++ (']' :: rest) = ']' :: rest from by
          simp [printItemsRest]]
        rw [ih1 x (']' :: rest) hx ⟨by decide, by decide⟩]
        rfl
      | cons y ys =>
        have hys : sizeL (JsonList.cons y ys) < f := by
          simp only [sizeL] at hsize ⊢
          omega
        have hrec := ih2 y ys rest hys
        rw [piStep]
        rw [show printItemsRest (JsonList.cons y ys) ++ (']' :: rest) =
          ',' :: (printJson y ++ (printItemsRest ys ++ (']' :: rest))) from by
          simp [printItemsRest]]
        rw [ih1 x (',' :: (printJson y ++ (printItemsRest ys ++ (']' :: rest))))
          hx ⟨by decide, by decide⟩]
        show (parseItems f (printJson y ++ (printItemsRest ys ++ (']' :: rest)))).map
          (fun q => (JsonList.cons x q.1, q.2)) =
          some (JsonList.cons x (JsonList.cons y ys), rest)
        rw [hrec]
        rfl
    · -- parseMembers round trip
      intro k v xs rest hsize
      have hkfuel : k.data.length < f + 1 := by
        simp only [sizeO] at hsize
        omega
      have hv : sizeJ v < f := by
        simp only [sizeO] at hsize
        omega
      rw [pmStep f _]
      rw [parseStringBody_esc k.data (f + 1)
        (':' :: (printJson v ++ (printMembersRest xs ++ (rbrace :: rest))))
        hkfuel]
      cases xs with
      | nil =>
        rw [show printMembersRest JsonObj.nil ++ (rbrace :: rest) =
          rbrace :: rest from by simp [printMembersRest]]
        show (Option.bind (parseValue f (printJson v ++ (rbrace :: rest))) (fun vp =>
          match skipWs vp.2 with
          | [] => none
          | c3 :: r3 =>
            if c3 = ',' then
              (parseMembers f r3).map
                (fun q => (JsonObj.cons (String.mk k.data) vp.1 q.1, q.2))
            else if c3 = rbrace then
              some (JsonObj.cons (String.mk k.data) vp.1 JsonObj.nil, r3)
            else none)) = some (JsonObj.cons k v JsonObj.nil, rest)
        rw [ih1 v (rbrace :: rest) hv ⟨by decide, by decide⟩]
        show (if rbrace = ',' then
            (parseMembers f rest).map
              (fun q => (JsonObj.cons (String.mk k.data) v q.1, q.2))
          else if rbrace = rbrace then
            some (JsonObj.cons (String.mk k.data) v JsonObj.nil, rest)
          else none) = some (JsonObj.cons k v JsonObj.nil, rest)
        rw [if_neg (by decide), if_pos rfl, stringMk_data]
      | cons k2 v2 xs2 =>
        have hrec := ih3 k2 v2 xs2 rest (by
          simp only [sizeO] at hsize ⊢
          omega)
        set W : List Char := '"' :: (escString k2.data ++
          ('"' :: (':' :: (printJson v2 ++
            (printMembersRest xs2 ++ (rbrace :: rest)))))) with hW
        rw [show printMembersRest (JsonObj.cons k2 v2 xs2) ++ (rbrace :: rest) =
          ',' :: W from by rw [hW]; simp [printMembersRest, printKV]]
        show (Option.bind (parseValue f (printJson v ++ (',' :: W))) (fun vp =>
          match skipWs vp.2 with
          | [] => none
          | c3 :: r3 =>
            if c3 = ',' then
              (parseMembers f r3).map
                (fun q => (JsonObj.cons (String.mk k.data) vp.1 q.1, q.2))
            else if c3 = rbrace then
              some (JsonObj.cons (String.mk k.data) vp.1 JsonObj.nil, r3)
            else none)) =
          some (JsonObj.cons k v (JsonObj.cons k2 v2 xs2), rest)
        rw [ih1 v (',' :: W) hv ⟨by decide, by decide⟩]
        show (parseMembers f W).map
            (fun q => (JsonObj.cons (String.mk k.data) v q.1, q.2)) =
          some (JsonObj.cons k v (JsonObj.cons k2 v2 xs2), rest)
        rw [hrec, stringMk_data]
        rfl
    · -- size bound for values
      intro v hsize
      cases v with
      | null => simp [sizeJ, printJson]
      | bool b => cases b <;> simp [sizeJ, printJson]
      | num neg m e =>
        obtain ⟨c, t, hct, _⟩ := printNum_shape neg m e
        rw [show printJson (Json.num neg m e) = printNum neg m e from by
          simp [printJson], hct]
        simp [sizeJ]
      | str s =>
        have h := escString_length_ge s.data
        rw [show printJson (Json.str s) = '"' :: (escString s.data ++ ['"']) from by
          simp [printJson]]
        simp only [sizeJ, List.length_cons, List.length_append, List.length_singleton]
        omega
      | arr xs =>
        cases xs with
        | nil => simp [sizeJ, sizeL, printJson]
        | cons x xs =>
          have hx : sizeJ x ≤ (printJson x).length := by
            apply ih4
            simp only [sizeJ, sizeL] at hsize
            omega
          have hxs : sizeL xs ≤ (printItemsRest xs).length := by
            apply ih5
            simp only [sizeJ, sizeL] at hsize
            omega
          rw [show printJson (Json.arr (JsonList.cons x xs)) =
            '[' :: (printJson x ++ printItemsRest xs ++ [']']) from by
            simp [printJson]]
          simp only [sizeJ, sizeL, List.length_cons, List.length_append,
            List.length_singleton]
          omega
      | obj xs =>
        cases xs with
        | nil => simp [sizeJ, sizeO, printJson, printMembersRest]
        | cons k v xs =>
          have hk := escString_length_ge k.data
          have hv : sizeJ v ≤ (printJson v).length := by
            apply ih4
            simp only [sizeJ, sizeO] at hsize
            omega
          have hxs : sizeO xs ≤ (printMembersRest xs).length := by
            apply ih6
            simp only [sizeJ, sizeO] at hsize
            omega
          rw [show printJson (Json.obj (JsonObj.cons k v xs)) =
            lbrace :: (printKV k v ++ printMembersRest xs ++ [rbrace]) from by
            simp [printJson]]
          rw [show printKV k v =
            '"' :: (escString k.data ++ '"' :: ':' :: printJson v) from by
            simp [printKV]]
          simp only [sizeJ, sizeO, List.length_cons, List.length_append,
            List.length_singleton]
          omega
    · -- size bound for item lists
      intro xs hsize
      cases xs with
      | nil => simp [sizeL, printItemsRest]
      | cons y ys =>
        have hy : sizeJ y ≤ (printJson y).length := by
          apply ih4
          simp only [sizeL] at hsize
          omega
        have hys : sizeL ys ≤ (printItemsRest ys).length := by
          apply ih5
          simp only [sizeL] at hsize
          omega
        rw [show printItemsRest (JsonList.cons y ys) =
          ',' :: (printJson y ++ printItemsRest ys) from by simp [printItemsRest]]
        simp only [sizeL, List.length_cons, List.length_append]
        omega
    · -- size bound for member lists
      intro xs hsize
      cases xs with
      | nil => simp [sizeO, printMembersRest]
      | cons k v ys =>
        have hk := escString_length_ge k.data
        have hv : sizeJ v ≤ (printJson v).length := by
          apply ih4
          simp only [sizeO] at hsize
          omega
        have hys : sizeO ys ≤ (printMembersRest ys).length := by
          apply ih6
          simp only [sizeO] at hsize
          omega
        rw [show printMembersRest (JsonObj.cons k v ys) =
          ',' :: (('"' :: (escString k.data ++ '"' :: ':' :: printJson v)) ++
            printMembersRest ys) from by simp [printMembersRest, printKV]]
        simp only [sizeO, List.length_cons, List.length_append]
        omega

/-! ## C8: round-trip of the saved JSON -/

theorem jsonParse_printJson (v : Json) : jsonParse (printJson v) = some v := by
  have hsize : sizeJ v ≤ (printJson v).length :=
    (parse_print_mega (sizeJ v + 1)).2.2.2.1 v (Nat.lt_succ_self _)
  have h1 := (parse_print_mega ((printJson v).length + 1)).1 v [] (by omega) trivial
  rw [List.append_nil] at h1
  unfold jsonParse
  rw [h1]
  rfl

/-- C8: serializing the in-memory `{ metadata, products }` object the way
`saveProducts` writes `crystallize-products.json` and reading it back with
`JSON.parse` is lossless: the parse returns exactly the original object — so
the product count and every field value of every product survive the round
trip — and looking up the `products` key recovers the original product array
while `metadata` recovers the original metadata block. -/
theorem saveOutput_json_roundtrip : ∀ (meta : Json) (ps : JsonList),
    jsonParse (printJson (outputObjJson meta ps)) =
      some (outputObjJson meta ps) ∧
    objLookup "metadata" (outputObjJson meta ps) = some meta ∧
    objLookup "products" (outputObjJson meta ps) = some (Json.arr ps) := by
  intro meta ps
  exact ⟨jsonParse_printJson _, rfl, rfl⟩

end Norko
